import Mathlib

/-!
Verification development for the Hanami HTML engine (peter1745/Hanami).

This file gives a shallow embedding, in Lean, of the parts of the engine
that the checked properties are about:

* the token model (src/src/html/tokenizer.hpp, Source/HTML/Tokenizer.hpp);
* newline normalisation (Parser::normalize_input_stream);
* the legacy batch tokenizer hanami::html::Tokenizer::tokenize
  (src/src/html/tokenizer.cpp);
* the current callback tokenizer Hanami::HTML::Tokenizer
  (Source/HTML/Tokenizer.cpp: start / process_next_token);
* the DOM node model and Node::insert_before / append_child
  (Source/DOM Node implementation);
* the tree builder hanami::html::TreeBuilder::process_token and its
  insertion algorithms (src/src/html/tree_builder.cpp);
* the parser facade wiring the tokenizer to the tree builder.

C++ `raise(SIGTRAP)` (also behind the TODO() macro of tree_builder.cpp) is
modelled as the fatal outcome `Outcome.trap`: the default disposition of
SIGTRAP terminates the process.  Undefined behaviour that the translated
code can reach (dereferencing a null current node, popping an empty
vector) is likewise modelled as `Outcome.trap`.  Strings are modelled as
`List Char`; the engine's byte strings are treated at char granularity,
which is exact for the ASCII inputs exercised here.
-/

namespace Hanami

/-- Result of running a piece of engine code: a value, a fatal
`raise(SIGTRAP)` / undefined behaviour, or exhaustion of the fuel used to
drive a C++ loop. -/
inductive Outcome (α : Type) where
  | ok (a : α)
  | trap
  | outOfFuel
deriving DecidableEq, Repr

/-- https://infra.spec.whatwg.org/#ascii-upper-alpha (Core.hpp). -/
def isAsciiUpperAlpha (c : Char) : Bool :=
  'A' ≤ c && c ≤ 'Z'

/-- https://infra.spec.whatwg.org/#ascii-lower-alpha (Core.hpp). -/
def isAsciiLowerAlpha (c : Char) : Bool :=
  'a' ≤ c && c ≤ 'z'

/-- https://infra.spec.whatwg.org/#ascii-alpha (Core.hpp). -/
def isAsciiAlpha (c : Char) : Bool :=
  isAsciiLowerAlpha c || isAsciiUpperAlpha c

/-- https://infra.spec.whatwg.org/#ascii-alphanumeric (Core.hpp). -/
def isAsciiAlphaNumeric (c : Char) : Bool :=
  ('0' ≤ c && c ≤ '9') || isAsciiAlpha c

/-- `std::tolower` in the C locale: lower-cases ASCII capitals only. -/
def toLowerAscii (c : Char) : Char :=
  if isAsciiUpperAlpha c then Char.ofNat (c.toNat + 32) else c

/-- `equals_case_insensitive` (Core.hpp): length check plus per-character
tolower comparison. -/
def equalsCaseInsensitive (a b : List Char) : Bool :=
  a.length == b.length &&
    (List.zip a b).all fun p => toLowerAscii p.1 == toLowerAscii p.2

end Hanami

namespace Hanami.HTML

/-- Attribute of a tag token (`TagAttribute` in tokenizer.hpp). -/
structure TagAttribute where
  name : List Char
  value : List Char
deriving DecidableEq, Repr

/-- The token sum type (`Token` variant in tokenizer.hpp): DOCTYPE,
start tag, end tag, comment, single character, end-of-file. -/
inductive Token where
  | doctype (name : List Char) (publicId systemId : Option (List Char))
      (forceQuirks : Bool)
  | startTag (name : List Char) (selfClosing : Bool)
      (attributes : List TagAttribute)
  | endTag (name : List Char) (selfClosing : Bool)
      (attributes : List TagAttribute)
  | comment (data : List Char)
  | char (c : Char)
  | eof
deriving DecidableEq, Repr

/-- `std::variant` default construction of `Token{}`: the first
alternative, a value-initialised `DOCTYPEToken`. -/
def Token.default : Token :=
  .doctype [] none none false

/-- `token_is_character(token, c)` (tokenizer.hpp). -/
def tokenIsCharacter (t : Token) (c : Char) : Bool :=
  match t with
  | .char d => d == c
  | _ => false

/-- `token_is_start_tag(token, tag)` (tokenizer.hpp). -/
def tokenIsStartTag (t : Token) (tag : List Char) : Bool :=
  match t with
  | .startTag n _ _ => n == tag
  | _ => false

/-- `token_is_start_tag_any_of(token, names)` (tokenizer.hpp). -/
def tokenIsStartTagAnyOf (t : Token) (names : List (List Char)) : Bool :=
  match t with
  | .startTag n _ _ => names.any fun tag => n == tag
  | _ => false

/-- `token_is_end_tag(token, tag)` (tokenizer.hpp). -/
def tokenIsEndTag (t : Token) (tag : List Char) : Bool :=
  match t with
  | .endTag n _ _ => n == tag
  | _ => false

/-- `token_is_end_tag_any_of(token, names)` (tokenizer.hpp). -/
def tokenIsEndTagAnyOf (t : Token) (names : List (List Char)) : Bool :=
  match t with
  | .endTag n _ _ => names.any fun tag => n == tag
  | _ => false

/-- `token_tag_name(token)` (tokenizer.hpp): the tag name for start or end
tags, the empty string for everything else. -/
def tokenTagName (t : Token) : List Char :=
  match t with
  | .startTag n _ _ => n
  | .endTag n _ _ => n
  | _ => []

/-- `get_token_attribute_value(token, name)` (tokenizer.hpp): value of the
first attribute with the given name, if any. -/
def getTokenAttributeValue (attrs : List TagAttribute) (name : List Char) :
    Option (List Char) :=
  match attrs with
  | [] => none
  | a :: rest =>
    if a.name = name then some a.value else getTokenAttributeValue rest name

/-- `std::regex_replace(s, std::regex("\r\n"), "\n")`: left-to-right,
non-overlapping replacement of every CR LF pair by a single LF. -/
def regexReplaceCRLF : List Char → List Char
  | '\r' :: '\n' :: rest => '\n' :: regexReplaceCRLF rest
  | c :: rest => c :: regexReplaceCRLF rest
  | [] => []

/-- `Parser::normalize_input_stream` (parser.cpp): replace CR LF pairs by
LF with `regex_replace`, then replace every remaining CR by LF with
`std::ranges::replace`. -/
def Parser.normalizeInputStream (input : List Char) : List Char :=
  (regexReplaceCRLF input).map fun c => if c = '\r' then '\n' else c

/-- Specification-side single-pass normalisation, written from the spec's
words: "Replace every CR LF pair with a single LF; replace every remaining
standalone CR with LF", all other characters unchanged in order. -/
def normalizeNewlinesSpec : List Char → List Char
  | '\r' :: '\n' :: rest => '\n' :: normalizeNewlinesSpec rest
  | '\r' :: rest => '\n' :: normalizeNewlinesSpec rest
  | c :: rest => c :: normalizeNewlinesSpec rest
  | [] => []

end Hanami.HTML

namespace Hanami

/-- Sequencing for engine code outcomes. -/
def Outcome.bind {α β : Type} : Outcome α → (α → Outcome β) → Outcome β
  | .ok a, f => f a
  | .trap, _ => .trap
  | .outOfFuel, _ => .outOfFuel

instance : Monad Outcome where
  pure := Outcome.ok
  bind := Outcome.bind

end Hanami

namespace Hanami.HTML

open Hanami

/-- The `std::visit(VariantOverloadSet{StartTagToken.., EndTagToken..,
SIGTRAP})` pattern appending a (lowered) character to the current tag
token's tag name. -/
def Token.appendTagName (t : Token) (c : Char) : Outcome Token :=
  match t with
  | .startTag n sc attrs => .ok (.startTag (n ++ [c]) sc attrs)
  | .endTag n sc attrs => .ok (.endTag (n ++ [c]) sc attrs)
  | _ => .trap

/-- Same visit pattern, setting the current tag token's self-closing
flag. -/
def Token.setSelfClosing (t : Token) : Outcome Token :=
  match t with
  | .startTag n _ attrs => .ok (.startTag n true attrs)
  | .endTag n _ attrs => .ok (.endTag n true attrs)
  | _ => .trap

/-- `token.attributes.emplace_back(attribute)`: start a new attribute in
the current tag token; `m_current_attribute` then points at the new last
attribute. -/
def Token.pushAttribute (t : Token) (a : TagAttribute) : Outcome Token :=
  match t with
  | .startTag n sc attrs => .ok (.startTag n sc (attrs ++ [a]))
  | .endTag n sc attrs => .ok (.endTag n sc (attrs ++ [a]))
  | _ => .trap

/-- `current_attribute->name += c`.  The current-attribute pointer always
designates the most recently emplaced attribute of the current tag token;
a missing attribute (null/stale pointer, unreachable in the machine's own
control flow) is undefined behaviour, hence `trap`. -/
def Token.appendAttrName (t : Token) (c : Char) : Outcome Token :=
  match t with
  | .startTag n sc attrs =>
    match attrs.getLast? with
    | some a =>
      .ok (.startTag n sc (attrs.dropLast ++ [{ a with name := a.name ++ [c] }]))
    | none => .trap
  | .endTag n sc attrs =>
    match attrs.getLast? with
    | some a =>
      .ok (.endTag n sc (attrs.dropLast ++ [{ a with name := a.name ++ [c] }]))
    | none => .trap
  | _ => .trap

/-- `current_attribute->value += c` (same pointer discipline as
`Token.appendAttrName`). -/
def Token.appendAttrValue (t : Token) (c : Char) : Outcome Token :=
  match t with
  | .startTag n sc attrs =>
    match attrs.getLast? with
    | some a =>
      .ok (.startTag n sc (attrs.dropLast ++ [{ a with value := a.value ++ [c] }]))
    | none => .trap
  | .endTag n sc attrs =>
    match attrs.getLast? with
    | some a =>
      .ok (.endTag n sc (attrs.dropLast ++ [{ a with value := a.value ++ [c] }]))
    | none => .trap
  | _ => .trap

/-- `std::get<DOCTYPEToken>(current_token).force_quirks = true`; a
non-DOCTYPE current token would throw `bad_variant_access`. -/
def Token.doctypeSetForceQuirks (t : Token) : Outcome Token :=
  match t with
  | .doctype n p s _ => .ok (.doctype n p s true)
  | _ => .trap

/-- `std::get<DOCTYPEToken>(current_token).name += c`. -/
def Token.doctypeAppendName (t : Token) (c : Char) : Outcome Token :=
  match t with
  | .doctype n p s fq => .ok (.doctype (n ++ [c]) p s fq)
  | _ => .trap

/-- `std::get<CommentToken>(current_token).data += c`. -/
def Token.commentAppend (t : Token) (c : Char) : Outcome Token :=
  match t with
  | .comment d => .ok (.comment (d ++ [c]))
  | _ => .trap

/-- `std::get<CommentToken>(current_token).data += s` (for the two-dash
append in the comment end state). -/
def Token.commentAppendList (t : Token) (s : List Char) : Outcome Token :=
  match t with
  | .comment d => .ok (.comment (d ++ s))
  | _ => .trap

/-- U+FFFD REPLACEMENT CHARACTER (the `"�"` literals of the source). -/
def replacementChar : Char := '�'

end Hanami.HTML

namespace Hanami.HTML.Legacy

open Hanami Hanami.HTML

/-- `enum class TokenizerState` of src/src/html/tokenizer.cpp (the legacy
hanami::html generation). -/
inductive TokenizerState where
  | data
  | characterReference
  | tagOpen
  | namedCharacterReference
  | numericCharacterReference
  | markupDeclarationOpen
  | endTagOpen
  | tagName
  | bogusComment
  | commentStart
  | doctypeState
  | beforeDOCTYPEName
  | doctypeName
  | afterDOCTYPEName
  | beforeAttributeName
  | selfClosingStartTag
  | afterAttributeName
  | attributeName
  | beforeAttributeValue
  | attributeValueDoubleQuoted
  | attributeValueSingleQuoted
  | attributeValueUnquoted
  | afterAttributeValueQuoted
  | commentStartDash
  | commentState
  | commentLessThanSign
  | commentEndDash
  | commentEnd
  | commentEndBang
  | commentLessThanSignBang
deriving DecidableEq, Repr

/-- The local state of `Tokenizer::tokenize`'s loop: the `next_char`
cursor (an index into the normalised source), whether `current_char`
compares equal to `source.end()` (which is the loop's exit condition),
the state pair, the accumulators, and the `result` vector of emitted
tokens.  The default-constructed `current_char` iterator of the C++ code
is modelled as "not at end", which is how the entry comparison behaves in
practice. -/
structure LoopState where
  input : List Char
  nextPos : Nat
  curAtEnd : Bool
  state : TokenizerState
  returnState : TokenizerState
  temporaryBuffer : List Char
  currentToken : Token
  result : List Token
deriving Repr

/-- `consume_next_character`: `current_char = next_char`; at the end of
the source the iterator is returned unchanged (`none`), otherwise
`++next_char` and the consumed character is produced. -/
def consumeNextCharacter (s : LoopState) : LoopState × Option Char :=
  if s.nextPos = s.input.length then
    ({ s with curAtEnd := true }, none)
  else
    ({ s with curAtEnd := false, nextPos := s.nextPos + 1 },
      some (s.input.getD s.nextPos ' '))

/-- `consume_n_characters(n)`: n discarded consumes. -/
def consumeNCharacters (s : LoopState) : Nat → LoopState
  | 0 => s
  | n + 1 => consumeNCharacters (consumeNextCharacter s).1 n

/-- `inspect_chars_forward(n)` builds `string_view{next_char, next_char+n}`.
Reading past the end of the source is undefined in C++; the model returns
the available prefix (shorter than `n` near the end), on which the literal
comparisons of the markup declaration open state are false. -/
def inspectCharsForward (s : LoopState) (n : Nat) : List Char :=
  (s.input.drop s.nextPos).take n

/-- `--next_char` followed by a state assignment (the "reconsume in X"
rule). -/
def reconsumeIn (s : LoopState) (st : TokenizerState) : LoopState :=
  { s with nextPos := s.nextPos - 1, state := st }

/-- `result.emplace_back(token)`. -/
def emit (s : LoopState) (t : Token) : LoopState :=
  { s with result := s.result ++ [t] }

/-- One execution of the `switch (state)` body of
`hanami::html::Tokenizer::tokenize` (src/src/html/tokenizer.cpp).  The
`default:` arm of the switch — every state the legacy tokenizer does not
implement — raises SIGTRAP, i.e. traps. -/
def step (s0 : LoopState) : Outcome LoopState :=
  match s0.state with
  | .data =>
    let (s, oc) := consumeNextCharacter s0
    match oc with
    | none => .ok (emit s .eof)
    | some c =>
      if c = '&' then
        .ok { s with returnState := .data, state := .characterReference }
      else if c = '<' then
        .ok { s with state := .tagOpen }
      else
        -- the NULL arm and the "anything else" arm both emit the character
        .ok (emit s (.char c))
  | .tagOpen =>
    let (s, oc) := consumeNextCharacter s0
    match oc with
    | none => .ok (emit (emit s (.char '<')) .eof)
    | some c =>
      if c = '!' then
        .ok { s with state := .markupDeclarationOpen }
      else if c = '/' then
        .ok { s with state := .endTagOpen }
      else if isAsciiAlpha c then
        .ok (reconsumeIn { s with currentToken := .startTag [] false [] } .tagName)
      else if c = '?' then
        .ok (reconsumeIn { s with currentToken := .comment [] } .bogusComment)
      else
        .ok (reconsumeIn (emit s (.char '<')) .data)
  | .endTagOpen =>
    let (s, oc) := consumeNextCharacter s0
    match oc with
    | none => .ok (emit (emit (emit s (.char '<')) (.char '/')) .eof)
    | some c =>
      if isAsciiAlpha c then
        .ok (reconsumeIn { s with currentToken := .endTag [] false [] } .tagName)
      else if c = '>' then
        .ok { s with state := .data }
      else
        -- note: the source switches to bogus comment WITHOUT the
        -- `--next_char` of a true reconsume here
        .ok { s with currentToken := .comment [], state := .bogusComment }
  | .markupDeclarationOpen =>
    if inspectCharsForward s0 2 = ['-', '-'] then
      let s := consumeNCharacters s0 2
      .ok { s with currentToken := .comment [], state := .commentStart }
    else if equalsCaseInsensitive (inspectCharsForward s0 7) "DOCTYPE".toList then
      let s := consumeNCharacters s0 7
      .ok { s with state := .doctypeState }
    else if inspectCharsForward s0 7 = "[CDATA[".toList then
      .trap
    else
      .ok { s0 with currentToken := .comment [], state := .bogusComment }
  | .doctypeState =>
    let (s, oc) := consumeNextCharacter s0
    match oc with
    | none =>
      let s := { s with currentToken := Token.doctype [] none none true }
      .ok (emit (emit s s.currentToken) .eof)
    | some c =>
      if c = '\t' || c = '\n' || c = '\x0c' || c = ' ' then
        .ok { s with state := .beforeDOCTYPEName }
      else if c = '>' then
        .ok (reconsumeIn s .beforeDOCTYPEName)
      else
        .ok (reconsumeIn s .beforeDOCTYPEName)
  | .beforeDOCTYPEName =>
    let (s, oc) := consumeNextCharacter s0
    match oc with
    | none =>
      let s := { s with currentToken := Token.doctype [] none none true }
      .ok (emit (emit s s.currentToken) .eof)
    | some c =>
      if c = '\t' || c = '\n' || c = '\x0c' || c = ' ' then
        .ok s
      else if isAsciiUpperAlpha c then
        .ok { s with currentToken := .doctype [toLowerAscii c] none none false,
                     state := .doctypeName }
      else if c = '\x00' then
        .ok { s with currentToken := .doctype [replacementChar] none none false,
                     state := .doctypeName }
      else if c = '>' then
        let s := { s with currentToken := Token.doctype [] none none true,
                          state := .data }
        .ok (emit s s.currentToken)
      else
        .ok { s with currentToken := .doctype [c] none none false,
                     state := .doctypeName }
  | .doctypeName =>
    let (s, oc) := consumeNextCharacter s0
    match oc with
    | none => do
      let t ← s.currentToken.doctypeSetForceQuirks
      let s := { s with currentToken := t }
      .ok (emit (emit s t) .eof)
    | some c =>
      if c = '\t' || c = '\n' || c = '\x0c' || c = ' ' then
        .ok { s with state := .afterDOCTYPEName }
      else if c = '>' then
        .ok (emit { s with state := .data } s.currentToken)
      else if isAsciiUpperAlpha c then do
        let t ← s.currentToken.doctypeAppendName (toLowerAscii c)
        .ok { s with currentToken := t }
      else if c = '\x00' then do
        let t ← s.currentToken.doctypeAppendName replacementChar
        .ok { s with currentToken := t }
      else do
        let t ← s.currentToken.doctypeAppendName c
        .ok { s with currentToken := t }
  | .characterReference =>
    -- the temporary buffer is reset to "&" before consuming
    let s0 := { s0 with temporaryBuffer := ['&'] }
    let (s, oc) := consumeNextCharacter s0
    match oc with
    | none => .trap -- `*consume_next_character()` dereferences `end()`
    | some c =>
      if isAsciiAlphaNumeric c then
        .ok (reconsumeIn s .namedCharacterReference)
      else if c = '#' then
        .ok { s with temporaryBuffer := s.temporaryBuffer ++ [c],
                     state := .numericCharacterReference }
      else
        -- flush code points consumed as a character reference
        let s := s.temporaryBuffer.foldl (fun acc ch => emit acc (.char ch)) s
        .ok (reconsumeIn s s.returnState)
  | .tagName =>
    let (s, oc) := consumeNextCharacter s0
    match oc with
    | none => .ok (emit s .eof)
    | some c =>
      if c = '\t' || c = '\n' || c = '\x0c' || c = ' ' then
        .ok { s with state := .beforeAttributeName }
      else if c = '/' then
        .ok { s with state := .selfClosingStartTag }
      else if c = '>' then
        .ok (emit { s with state := .data } s.currentToken)
      else if isAsciiUpperAlpha c then do
        let t ← s.currentToken.appendTagName (toLowerAscii c)
        .ok { s with currentToken := t }
      else if c = '\x00' then do
        let t ← s.currentToken.appendTagName replacementChar
        .ok { s with currentToken := t }
      else do
        -- the "anything else" arm of this implementation also lowers
        let t ← s.currentToken.appendTagName (toLowerAscii c)
        .ok { s with currentToken := t }
  | .selfClosingStartTag =>
    let (s, oc) := consumeNextCharacter s0
    match oc with
    | none => .ok (emit s .eof)
    | some c =>
      if c = '>' then do
        let t ← s.currentToken.setSelfClosing
        let s := { s with currentToken := t, state := .data }
        .ok (emit s t)
      else
        .ok (reconsumeIn s .beforeAttributeName)
  | .beforeAttributeName =>
    let (s, oc) := consumeNextCharacter s0
    match oc with
    | none => .ok (reconsumeIn s .afterAttributeName)
    | some c =>
      if c = '\t' || c = '\n' || c = '\x0c' || c = ' ' then
        .ok s
      else if c = '/' || c = '>' || c = '=' then do
        let t ← s.currentToken.pushAttribute { name := [c], value := [] }
        .ok { s with currentToken := t, state := .attributeName }
      else do
        let t ← s.currentToken.pushAttribute { name := [], value := [] }
        .ok (reconsumeIn { s with currentToken := t } .attributeName)
  | .attributeName =>
    let (s, oc) := consumeNextCharacter s0
    match oc with
    | none => .ok (reconsumeIn s .afterAttributeName)
    | some c =>
      if c = '\t' || c = '\n' || c = '\x0c' || c = ' ' ||
         c = '/' || c = '>' || c = '=' then
        .ok { s with state := .beforeAttributeValue }
      else if isAsciiUpperAlpha c then do
        let t ← s.currentToken.appendAttrName (toLowerAscii c)
        .ok { s with currentToken := t }
      else if c = '\x00' then do
        let t ← s.currentToken.appendAttrName replacementChar
        .ok { s with currentToken := t }
      else do
        -- the quote / less-than parse-error characters fall through to
        -- the "anything else" append
        let t ← s.currentToken.appendAttrName c
        .ok { s with currentToken := t }
  | .beforeAttributeValue =>
    let (s, oc) := consumeNextCharacter s0
    match oc with
    | none => .trap -- `*consume_next_character()` dereferences `end()`
    | some c =>
      if c = '\t' || c = '\n' || c = '\x0c' || c = ' ' then
        .ok s
      else if c = '"' then
        .ok { s with state := .attributeValueDoubleQuoted }
      else if c = '\'' then
        .ok { s with state := .attributeValueSingleQuoted }
      else if c = '>' then
        .ok (emit { s with state := .data } s.currentToken)
      else
        .ok (reconsumeIn s .attributeValueUnquoted)
  | .attributeValueDoubleQuoted =>
    let (s, oc) := consumeNextCharacter s0
    match oc with
    | none => .ok (emit s .eof)
    | some c =>
      if c = '"' then
        .ok { s with state := .afterAttributeValueQuoted }
      else if c = '&' then
        .ok { s with returnState := .attributeValueDoubleQuoted,
                     state := .characterReference }
      else if c = '\x00' then do
        let t ← s.currentToken.appendAttrValue replacementChar
        .ok { s with currentToken := t }
      else do
        let t ← s.currentToken.appendAttrValue c
        .ok { s with currentToken := t }
  | .afterAttributeValueQuoted =>
    let (s, oc) := consumeNextCharacter s0
    match oc with
    | none => .ok (emit s .eof)
    | some c =>
      if c = '\t' || c = '\n' || c = '\x0c' || c = ' ' then
        .ok { s with state := .beforeAttributeName }
      else if c = '/' then
        .ok { s with state := .selfClosingStartTag }
      else if c = '>' then
        .ok (emit { s with state := .data } s.currentToken)
      else
        .ok (reconsumeIn s .beforeAttributeName)
  | .commentStart =>
    let (s, oc) := consumeNextCharacter s0
    match oc with
    | none => .trap -- `*consume_next_character()` dereferences `end()`
    | some c =>
      if c = '-' then
        .ok { s with state := .commentStartDash }
      else if c = '>' then
        .ok (emit { s with state := .data } s.currentToken)
      else
        .ok (reconsumeIn s .commentState)
  | .commentState =>
    let (s, oc) := consumeNextCharacter s0
    match oc with
    | none => .ok (emit (emit s s.currentToken) .eof)
    | some c =>
      if c = '<' then do
        let t ← s.currentToken.commentAppend c
        .ok { s with currentToken := t, state := .commentLessThanSign }
      else if c = '-' then
        .ok { s with state := .commentEndDash }
      else if c = '\x00' then do
        let t ← s.currentToken.commentAppend replacementChar
        .ok { s with currentToken := t }
      else do
        let t ← s.currentToken.commentAppend c
        .ok { s with currentToken := t }
  | .commentEndDash =>
    let (s, oc) := consumeNextCharacter s0
    match oc with
    | none => .ok (emit (emit s s.currentToken) .eof)
    | some c =>
      if c = '-' then
        .ok { s with state := .commentEnd }
      else do
        let t ← s.currentToken.commentAppend '-'
        .ok (reconsumeIn { s with currentToken := t } .commentState)
  | .commentEnd =>
    let (s, oc) := consumeNextCharacter s0
    match oc with
    | none => .ok (emit (emit s s.currentToken) .eof)
    | some c =>
      if c = '>' then
        .ok (emit { s with state := .data } s.currentToken)
      else if c = '!' then
        .ok { s with state := .commentEndBang }
      else if c = '-' then do
        let t ← s.currentToken.commentAppend '-'
        .ok { s with currentToken := t }
      else do
        let t ← s.currentToken.commentAppendList ['-', '-']
        .ok (reconsumeIn { s with currentToken := t } .commentState)
  | .commentLessThanSign =>
    let (s, oc) := consumeNextCharacter s0
    match oc with
    | none => .trap -- `*consume_next_character()` dereferences `end()`
    | some c =>
      if c = '!' then do
        let t ← s.currentToken.commentAppend c
        .ok { s with currentToken := t, state := .commentLessThanSignBang }
      else if c = '<' then do
        let t ← s.currentToken.commentAppend c
        .ok { s with currentToken := t }
      else
        .ok (reconsumeIn s .commentState)
  | _ => .trap -- `default: raise(SIGTRAP)` (unimplemented state)

/-- The `while (current_char != source.end())` driver loop of
`Tokenizer::tokenize`, with fuel for the Lean termination argument. -/
def loop : Nat → LoopState → Outcome (List Token)
  | 0, _ => .outOfFuel
  | fuel + 1, s =>
    if s.curAtEnd then .ok s.result
    else
      match step s with
      | .ok s' => loop fuel s'
      | .trap => .trap
      | .outOfFuel => .outOfFuel

/-- `hanami::html::Tokenizer::tokenize(input)`: normalise newlines, then
run the state machine from the data state over the whole input, returning
the vector of emitted tokens.  The fuel bound is generous: the loop makes
net forward progress and the inputs exercised here finish well within
it. -/
def tokenize (input : List Char) : Outcome (List Token) :=
  let source := Parser.normalizeInputStream input
  loop (8 * (source.length + 4))
    { input := source, nextPos := 0, curAtEnd := false,
      state := .data, returnState := .data,
      temporaryBuffer := [], currentToken := Token.default, result := [] }

end Hanami.HTML.Legacy

namespace Hanami.HTML

open Hanami

/-- `Tokenizer::State` (Source/HTML/Tokenizer.hpp). -/
inductive Tokenizer.State where
  | invalid
  | data
  | characterReference
  | tagOpen
  | namedCharacterReference
  | numericCharacterReference
  | markupDeclarationOpen
  | endTagOpen
  | tagName
  | bogusComment
  | commentStart
  | doctypeState
  | beforeDOCTYPEName
  | doctypeName
  | afterDOCTYPEName
  | beforeAttributeName
  | selfClosingStartTag
  | afterAttributeName
  | attributeName
  | beforeAttributeValue
  | attributeValueDoubleQuoted
  | attributeValueSingleQuoted
  | attributeValueUnquoted
  | afterAttributeValueQuoted
  | commentStartDash
  | commentState
  | commentLessThanSign
  | commentEndDash
  | commentEnd
  | commentEndBang
  | commentLessThanSignBang
  | rawtext
  | rcdata
  | rcdataLessThanSign
  | rcdataEndTagOpen
  | rcdataEndTagName
  | ambiguousAmpersand
  | hexadecimalCharacterReferenceStart
  | decimalCharacterReferenceStart
  | decimalCharacterReference
  | numericCharacterReferenceEnd
deriving DecidableEq, Repr

/-- `ProcessResult` of `Tokenizer::process_next_token`. -/
inductive ProcessResult where
  | cont
  | abort
deriving DecidableEq, Repr

/-- The mutable member state of `Hanami::HTML::Tokenizer`
(Source/HTML/Tokenizer.hpp): the input view, the cursor
`m_current_char_idx`, the state pair, the name of the last emitted start
tag, the current-token accumulator and the temporary buffer.  Tokens
handed to the emit callback are returned by each step instead. -/
structure Tokenizer where
  inputStream : List Char
  currentCharIdx : Nat
  state : Tokenizer.State
  returnState : Tokenizer.State
  lastEmittedStartTokenName : List Char
  currentToken : Token
  temporaryBuffer : List Char
deriving DecidableEq, Repr

namespace Tokenizer

/-- `Tokenizer::consume_next_character`: at or past the end of the input
return `'\0'` without advancing, otherwise return the character under the
cursor and advance. -/
def consumeNextCharacter (tk : Tokenizer) : Char × Tokenizer :=
  if tk.inputStream.length < tk.currentCharIdx + 1 then
    ('\x00', tk)
  else
    (tk.inputStream.getD tk.currentCharIdx ' ',
      { tk with currentCharIdx := tk.currentCharIdx + 1 })

/-- `Tokenizer::reached_eof`: cursor at or past the end. -/
def reachedEof (tk : Tokenizer) : Bool :=
  tk.inputStream.length ≤ tk.currentCharIdx

/-- `Tokenizer::reconsume_in`: step the cursor back one and set the
state.  (The `size_t` decrement is only ever executed after an advancing
consume on the paths realised by the machine, so the index stays in
range.) -/
def reconsumeIn (tk : Tokenizer) (s : State) : Tokenizer :=
  { tk with currentCharIdx := tk.currentCharIdx - 1, state := s }

/-- `Tokenizer::next_characters_equals`: false unless the whole literal
fits strictly inside the rest of the input (note the source's `>=`, which
also rejects a literal ending exactly at the end of input), then an
(optionally ASCII-case-insensitive) comparison. -/
def nextCharactersEquals (tk : Tokenizer) (chars : List Char)
    (caseInsensitive : Bool) : Bool :=
  if tk.inputStream.length ≤ tk.currentCharIdx + chars.length then
    false
  else
    let slice := (tk.inputStream.drop tk.currentCharIdx).take chars.length
    if caseInsensitive then equalsCaseInsensitive slice chars
    else slice == chars

/-- `Tokenizer::consume_multiple_chars(count)`: advance by the number of
characters actually available, at most `count`. -/
def consumeMultipleChars (tk : Tokenizer) (count : Nat) : Tokenizer :=
  let avail := tk.inputStream.length - tk.currentCharIdx
  { tk with currentCharIdx := tk.currentCharIdx + min count avail }

/-- `Tokenizer::current_is_appropriate_end_tag`: the current token is an
end tag whose name equals the last emitted start tag's name (and some
start tag has been emitted). -/
def currentIsAppropriateEndTag (tk : Tokenizer) : Bool :=
  match tk.currentToken with
  | .endTag n _ _ =>
    !tk.lastEmittedStartTokenName.isEmpty && n == tk.lastEmittedStartTokenName
  | _ => false

/-- `Tokenizer::emit_token` applied to an accumulator pair: record the
name of an emitted start tag and append the token to the tokens handed to
the callback during this step. -/
def emitTok (p : Tokenizer × List Token) (t : Token) : Tokenizer × List Token :=
  match t with
  | .startTag n _ _ =>
    ({ p.1 with lastEmittedStartTokenName := n }, p.2 ++ [t])
  | _ => (p.1, p.2 ++ [t])

end Tokenizer

end Hanami.HTML

namespace Hanami.HTML.Tokenizer

open Hanami Hanami.HTML

/-- `Tokenizer::process_next_token` (Source/HTML/Tokenizer.cpp): one
execution of the state switch.  Produces the updated tokenizer, the
tokens handed to the emit callback during the step (in order), and the
`ProcessResult`.  States whose arms are not implemented fall into the
`default:` arm which raises SIGTRAP, as does the named character
reference state whose arm begins with `raise(SIGTRAP)`. -/
def processNextToken (tk0 : Tokenizer) :
    Outcome (Tokenizer × List Token × ProcessResult) :=
  match tk0.state with
  | .data =>
    let (c, tk) := tk0.consumeNextCharacter
    if tk.reachedEof then
      let p := emitTok (tk, []) .eof
      .ok (p.1, p.2, .abort)
    else if c = '&' then
      .ok ({ tk with returnState := .data, state := .characterReference }, [], .cont)
    else if c = '<' then
      .ok ({ tk with state := .tagOpen }, [], .cont)
    else
      -- the NULL arm and the "anything else" arm both emit the character
      let p := emitTok (tk, []) (.char c)
      .ok (p.1, p.2, .cont)
  | .tagOpen =>
    let (c, tk) := tk0.consumeNextCharacter
    if tk.reachedEof then
      let p := emitTok (emitTok (tk, []) (.char '<')) .eof
      .ok (p.1, p.2, .abort)
    else if c = '!' then
      .ok ({ tk with state := .markupDeclarationOpen }, [], .cont)
    else if c = '/' then
      .ok ({ tk with state := .endTagOpen }, [], .cont)
    else if isAsciiAlpha c then
      .ok ((reconsumeIn { tk with currentToken := .startTag [] false [] } .tagName),
        [], .cont)
    else if c = '?' then
      .ok ((reconsumeIn { tk with currentToken := .comment [] } .bogusComment),
        [], .cont)
    else
      let p := emitTok (tk, []) (.char '<')
      .ok (reconsumeIn p.1 .data, p.2, .cont)
  | .endTagOpen =>
    let (c, tk) := tk0.consumeNextCharacter
    if tk.reachedEof then
      let p := emitTok (emitTok (emitTok (tk, []) (.char '<')) (.char '/')) .eof
      .ok (p.1, p.2, .abort)
    else if isAsciiAlpha c then
      .ok ((reconsumeIn { tk with currentToken := .endTag [] false [] } .tagName),
        [], .cont)
    else if c = '>' then
      .ok ({ tk with state := .data }, [], .cont)
    else
      .ok ((reconsumeIn { tk with currentToken := .comment [] } .bogusComment),
        [], .cont)
  | .markupDeclarationOpen =>
    if tk0.nextCharactersEquals ['-', '-'] false then
      let tk := tk0.consumeMultipleChars 2
      .ok ({ tk with currentToken := .comment [], state := .commentStart }, [], .cont)
    else if tk0.nextCharactersEquals "DOCTYPE".toList true then
      let tk := tk0.consumeMultipleChars 7
      .ok ({ tk with state := .doctypeState }, [], .cont)
    else if tk0.nextCharactersEquals "[CDATA[".toList false then
      .trap -- consume then `raise(SIGTRAP)`
    else
      .ok ({ tk0 with currentToken := .comment [], state := .bogusComment }, [], .cont)
  | .doctypeState =>
    let (c, tk) := tk0.consumeNextCharacter
    if tk.reachedEof then
      let tk := { tk with currentToken := Token.doctype [] none none true }
      let p := emitTok (emitTok (tk, []) tk.currentToken) .eof
      .ok (p.1, p.2, .abort)
    else if c = '\t' || c = '\n' || c = '\x0c' || c = ' ' then
      .ok ({ tk with state := .beforeDOCTYPEName }, [], .cont)
    else if c = '>' then
      .ok (reconsumeIn tk .beforeDOCTYPEName, [], .cont)
    else
      .ok (reconsumeIn tk .beforeDOCTYPEName, [], .cont)
  | .beforeDOCTYPEName =>
    let (c, tk) := tk0.consumeNextCharacter
    if tk.reachedEof then
      let tk := { tk with currentToken := Token.doctype [] none none true }
      let p := emitTok (emitTok (tk, []) tk.currentToken) .eof
      .ok (p.1, p.2, .abort)
    else if c = '\t' || c = '\n' || c = '\x0c' || c = ' ' then
      .ok (tk, [], .cont)
    else if isAsciiUpperAlpha c then
      .ok ({ tk with currentToken := .doctype [toLowerAscii c] none none false,
                     state := .doctypeName }, [], .cont)
    else if c = '\x00' then
      .ok ({ tk with currentToken := .doctype [replacementChar] none none false,
                     state := .doctypeName }, [], .cont)
    else if c = '>' then
      let tk := { tk with currentToken := Token.doctype [] none none true,
                          state := .data }
      let p := emitTok (tk, []) tk.currentToken
      .ok (p.1, p.2, .cont)
    else
      .ok ({ tk with currentToken := .doctype [c] none none false,
                     state := .doctypeName }, [], .cont)
  | .doctypeName =>
    let (c, tk) := tk0.consumeNextCharacter
    if tk.reachedEof then do
      let t ← tk.currentToken.doctypeSetForceQuirks
      let tk := { tk with currentToken := t }
      let p := emitTok (emitTok (tk, []) t) .eof
      .ok (p.1, p.2, .abort)
    else if c = '\t' || c = '\n' || c = '\x0c' || c = ' ' then
      .ok ({ tk with state := .afterDOCTYPEName }, [], .cont)
    else if c = '>' then
      let p := emitTok ({ tk with state := .data }, []) tk.currentToken
      .ok (p.1, p.2, .cont)
    else if isAsciiUpperAlpha c then do
      let t ← tk.currentToken.doctypeAppendName (toLowerAscii c)
      .ok ({ tk with currentToken := t }, [], .cont)
    else if c = '\x00' then do
      let t ← tk.currentToken.doctypeAppendName replacementChar
      .ok ({ tk with currentToken := t }, [], .cont)
    else do
      let t ← tk.currentToken.doctypeAppendName c
      .ok ({ tk with currentToken := t }, [], .cont)
  | .characterReference =>
    let tk0 := { tk0 with temporaryBuffer := ['&'] }
    let (c, tk) := tk0.consumeNextCharacter
    if isAsciiAlphaNumeric c then
      .ok (reconsumeIn tk .namedCharacterReference, [], .cont)
    else if c = '#' then
      .ok ({ tk with temporaryBuffer := tk.temporaryBuffer ++ [c],
                     state := .numericCharacterReference }, [], .cont)
    else
      -- flush code points consumed as a character reference
      let p := tk.temporaryBuffer.foldl (fun acc ch => emitTok acc (.char ch)) (tk, [])
      .ok (reconsumeIn p.1 p.1.returnState, p.2, .cont)
  | .namedCharacterReference =>
    -- the arm opens with `raise(SIGTRAP)` (the named character reference
    -- table is not implemented)
    .trap
  | .tagName =>
    let (c, tk) := tk0.consumeNextCharacter
    if tk.reachedEof then
      let p := emitTok (tk, []) .eof
      .ok (p.1, p.2, .abort)
    else if c = '\t' || c = '\n' || c = '\x0c' || c = ' ' then
      .ok ({ tk with state := .beforeAttributeName }, [], .cont)
    else if c = '/' then
      .ok ({ tk with state := .selfClosingStartTag }, [], .cont)
    else if c = '>' then
      let p := emitTok ({ tk with state := .data }, []) tk.currentToken
      .ok (p.1, p.2, .cont)
    else if isAsciiUpperAlpha c then do
      let t ← tk.currentToken.appendTagName (toLowerAscii c)
      .ok ({ tk with currentToken := t }, [], .cont)
    else if c = '\x00' then do
      let t ← tk.currentToken.appendTagName replacementChar
      .ok ({ tk with currentToken := t }, [], .cont)
    else do
      -- this implementation also lowers in the "anything else" arm
      let t ← tk.currentToken.appendTagName (toLowerAscii c)
      .ok ({ tk with currentToken := t }, [], .cont)
  | .selfClosingStartTag =>
    let (c, tk) := tk0.consumeNextCharacter
    if tk.reachedEof then
      let p := emitTok (tk, []) .eof
      .ok (p.1, p.2, .abort)
    else if c = '>' then do
      let t ← tk.currentToken.setSelfClosing
      let tk := { tk with currentToken := t, state := .data }
      let p := emitTok (tk, []) t
      .ok (p.1, p.2, .cont)
    else
      .ok (reconsumeIn tk .beforeAttributeName, [], .cont)
  | .beforeAttributeName =>
    let (c, tk) := tk0.consumeNextCharacter
    if tk.reachedEof then
      .ok (reconsumeIn tk .afterAttributeName, [], .cont)
    else if c = '\t' || c = '\n' || c = '\x0c' || c = ' ' then
      .ok (tk, [], .cont)
    else if c = '/' || c = '>' || c = '=' then do
      let t ← tk.currentToken.pushAttribute { name := [c], value := [] }
      .ok ({ tk with currentToken := t, state := .attributeName }, [], .cont)
    else do
      let t ← tk.currentToken.pushAttribute { name := [], value := [] }
      .ok (reconsumeIn { tk with currentToken := t } .attributeName, [], .cont)
  | .attributeName =>
    let (c, tk) := tk0.consumeNextCharacter
    if tk.reachedEof then
      .ok (reconsumeIn tk .afterAttributeName, [], .cont)
    else if c = '\t' || c = '\n' || c = '\x0c' || c = ' ' ||
            c = '/' || c = '>' || c = '=' then
      .ok ({ tk with state := .beforeAttributeValue }, [], .cont)
    else if isAsciiUpperAlpha c then do
      let t ← tk.currentToken.appendAttrName (toLowerAscii c)
      .ok ({ tk with currentToken := t }, [], .cont)
    else if c = '\x00' then do
      let t ← tk.currentToken.appendAttrName replacementChar
      .ok ({ tk with currentToken := t }, [], .cont)
    else do
      -- quote / apostrophe / less-than fall through to "anything else"
      let t ← tk.currentToken.appendAttrName c
      .ok ({ tk with currentToken := t }, [], .cont)
  | .beforeAttributeValue =>
    let (c, tk) := tk0.consumeNextCharacter
    if c = '\t' || c = '\n' || c = '\x0c' || c = ' ' then
      .ok (tk, [], .cont)
    else if c = '"' then
      .ok ({ tk with state := .attributeValueDoubleQuoted }, [], .cont)
    else if c = '\'' then
      .ok ({ tk with state := .attributeValueSingleQuoted }, [], .cont)
    else if c = '>' then
      let p := emitTok ({ tk with state := .data }, []) tk.currentToken
      .ok (p.1, p.2, .cont)
    else
      .ok (reconsumeIn tk .attributeValueUnquoted, [], .cont)
  | .attributeValueDoubleQuoted =>
    let (c, tk) := tk0.consumeNextCharacter
    if tk.reachedEof then
      let p := emitTok (tk, []) .eof
      .ok (p.1, p.2, .abort)
    else if c = '"' then
      .ok ({ tk with state := .afterAttributeValueQuoted }, [], .cont)
    else if c = '&' then
      .ok ({ tk with returnState := .attributeValueDoubleQuoted,
                     state := .characterReference }, [], .cont)
    else if c = '\x00' then do
      let t ← tk.currentToken.appendAttrValue replacementChar
      .ok ({ tk with currentToken := t }, [], .cont)
    else do
      let t ← tk.currentToken.appendAttrValue c
      .ok ({ tk with currentToken := t }, [], .cont)
  | .attributeValueUnquoted =>
    let (c, tk) := tk0.consumeNextCharacter
    if tk.reachedEof then
      let p := emitTok (tk, []) .eof
      .ok (p.1, p.2, .abort)
    else if c = '\t' || c = '\n' || c = '\x0c' || c = ' ' then
      .ok ({ tk with state := .beforeAttributeName }, [], .cont)
    else if c = '&' then
      .ok ({ tk with returnState := .attributeValueUnquoted,
                     state := .characterReference }, [], .cont)
    else if c = '>' then
      let p := emitTok ({ tk with state := .data }, []) tk.currentToken
      .ok (p.1, p.2, .cont)
    else if c = '\x00' then do
      let t ← tk.currentToken.appendAttrValue replacementChar
      .ok ({ tk with currentToken := t }, [], .cont)
    else do
      -- quote / apostrophe / less-than / equals / grave fall through
      let t ← tk.currentToken.appendAttrValue c
      .ok ({ tk with currentToken := t }, [], .cont)
  | .afterAttributeValueQuoted =>
    let (c, tk) := tk0.consumeNextCharacter
    if tk.reachedEof then
      let p := emitTok (tk, []) .eof
      .ok (p.1, p.2, .abort)
    else if c = '\t' || c = '\n' || c = '\x0c' || c = ' ' then
      .ok ({ tk with state := .beforeAttributeName }, [], .cont)
    else if c = '/' then
      .ok ({ tk with state := .selfClosingStartTag }, [], .cont)
    else if c = '>' then
      let p := emitTok ({ tk with state := .data }, []) tk.currentToken
      .ok (p.1, p.2, .cont)
    else
      .ok (reconsumeIn tk .beforeAttributeName, [], .cont)
  | .commentStart =>
    let (c, tk) := tk0.consumeNextCharacter
    if c = '-' then
      .ok ({ tk with state := .commentStartDash }, [], .cont)
    else if c = '>' then
      let p := emitTok ({ tk with state := .data }, []) tk.currentToken
      .ok (p.1, p.2, .cont)
    else
      .ok (reconsumeIn tk .commentState, [], .cont)
  | .commentState =>
    let (c, tk) := tk0.consumeNextCharacter
    if tk.reachedEof then
      let p := emitTok (emitTok (tk, []) tk.currentToken) .eof
      .ok (p.1, p.2, .abort)
    else if c = '<' then do
      let t ← tk.currentToken.commentAppend c
      .ok ({ tk with currentToken := t, state := .commentLessThanSign }, [], .cont)
    else if c = '-' then
      .ok ({ tk with state := .commentEndDash }, [], .cont)
    else if c = '\x00' then do
      let t ← tk.currentToken.commentAppend replacementChar
      .ok ({ tk with currentToken := t }, [], .cont)
    else do
      let t ← tk.currentToken.commentAppend c
      .ok ({ tk with currentToken := t }, [], .cont)
  | .commentEndDash =>
    let (c, tk) := tk0.consumeNextCharacter
    if tk.reachedEof then
      let p := emitTok (emitTok (tk, []) tk.currentToken) .eof
      .ok (p.1, p.2, .abort)
    else if c = '-' then
      .ok ({ tk with state := .commentEnd }, [], .cont)
    else do
      let t ← tk.currentToken.commentAppend '-'
      .ok (reconsumeIn { tk with currentToken := t } .commentState, [], .cont)
  | .commentEnd =>
    let (c, tk) := tk0.consumeNextCharacter
    if tk.reachedEof then
      let p := emitTok (emitTok (tk, []) tk.currentToken) .eof
      .ok (p.1, p.2, .abort)
    else if c = '>' then
      let p := emitTok ({ tk with state := .data }, []) tk.currentToken
      .ok (p.1, p.2, .cont)
    else if c = '!' then
      .ok ({ tk with state := .commentEndBang }, [], .cont)
    else if c = '-' then do
      let t ← tk.currentToken.commentAppend '-'
      .ok ({ tk with currentToken := t }, [], .cont)
    else do
      let t ← tk.currentToken.commentAppendList ['-', '-']
      .ok (reconsumeIn { tk with currentToken := t } .commentState, [], .cont)
  | .commentLessThanSign =>
    let (c, tk) := tk0.consumeNextCharacter
    if c = '!' then do
      let t ← tk.currentToken.commentAppend c
      .ok ({ tk with currentToken := t, state := .commentLessThanSignBang }, [], .cont)
    else if c = '<' then do
      let t ← tk.currentToken.commentAppend c
      .ok ({ tk with currentToken := t }, [], .cont)
    else
      .ok (reconsumeIn tk .commentState, [], .cont)
  | .rcdata =>
    let (c, tk) := tk0.consumeNextCharacter
    if tk.reachedEof then
      -- emit an end-of-file token, then `break`: the arm falls out of the
      -- switch with ProcessResult::Continue instead of aborting
      let p := emitTok (tk, []) .eof
      .ok (p.1, p.2, .cont)
    else if c = '&' then
      .ok ({ tk with returnState := .rcdata, state := .characterReference }, [], .cont)
    else if c = '<' then
      .ok ({ tk with state := .rcdataLessThanSign }, [], .cont)
    else if c = '\x00' then
      -- the source emits '?' here (FIXME placeholder for U+FFFD)
      let p := emitTok (tk, []) (.char '?')
      .ok (p.1, p.2, .cont)
    else
      let p := emitTok (tk, []) (.char c)
      .ok (p.1, p.2, .cont)
  | .rcdataLessThanSign =>
    let (c, tk) := tk0.consumeNextCharacter
    if c = '/' then
      .ok ({ tk with temporaryBuffer := [], state := .rcdataEndTagOpen }, [], .cont)
    else
      let p := emitTok (tk, []) (.char '<')
      .ok (reconsumeIn p.1 .rcdata, p.2, .cont)
  | .rcdataEndTagOpen =>
    let (c, tk) := tk0.consumeNextCharacter
    if isAsciiAlpha c then
      .ok ((reconsumeIn { tk with currentToken := .endTag [] false [] }
        .rcdataEndTagName), [], .cont)
    else
      let p := emitTok (emitTok (tk, []) (.char '<')) (.char '/')
      .ok (reconsumeIn p.1 .rcdata, p.2, .cont)
  | .rcdataEndTagName =>
    let (c, tk) := tk0.consumeNextCharacter
    if (c = '\t' || c = '\n' || c = '\x0c' || c = ' ') &&
        tk.currentIsAppropriateEndTag then
      .ok ({ tk with state := .beforeAttributeName }, [], .cont)
    else if c = '/' && tk.currentIsAppropriateEndTag then
      .ok ({ tk with state := .selfClosingStartTag }, [], .cont)
    else if c = '>' && tk.currentIsAppropriateEndTag then
      let p := emitTok ({ tk with state := .data }, []) tk.currentToken
      .ok (p.1, p.2, .cont)
    else if isAsciiUpperAlpha c then do
      let t ← tk.currentToken.appendTagName (toLowerAscii c)
      .ok ({ tk with currentToken := t,
                     temporaryBuffer := tk.temporaryBuffer ++ [c] }, [], .cont)
    else if isAsciiLowerAlpha c then do
      let t ← tk.currentToken.appendTagName c
      .ok ({ tk with currentToken := t,
                     temporaryBuffer := tk.temporaryBuffer ++ [c] }, [], .cont)
    else
      let p := emitTok (emitTok (tk, []) (.char '<')) (.char '/')
      let p := tk.temporaryBuffer.foldl (fun acc ch => emitTok acc (.char ch)) p
      .ok (reconsumeIn p.1 .rcdata, p.2, .cont)
  | _ => .trap -- `default: raise(SIGTRAP)` (unimplemented state)

end Hanami.HTML.Tokenizer

namespace Hanami.HTML.Tokenizer

open Hanami Hanami.HTML

/-- The `while (true)` driver loop inside `Tokenizer::start`: keep calling
`process_next_token` until it returns `Abort`, collecting every token
handed to the emit callback.  Fuel makes the recursion well-founded; a
run that does not abort within its fuel yields `outOfFuel`. -/
def runFuel : Nat → Tokenizer → List Token → Outcome (List Token)
  | 0, _, _ => .outOfFuel
  | fuel + 1, tk, acc =>
    match processNextToken tk with
    | .ok (tk', toks, .cont) => runFuel fuel tk' (acc ++ toks)
    | .ok (_, toks, .abort) => .ok (acc ++ toks)
    | .trap => .trap
    | .outOfFuel => .outOfFuel

/-- Initial member state of a `Tokenizer` about to run `start(input, cb)`:
cursor at zero, state set to `Data` by `start`. -/
def initFor (input : List Char) : Tokenizer :=
  { inputStream := input, currentCharIdx := 0, state := .data,
    returnState := .invalid, lastEmittedStartTokenName := [],
    currentToken := Token.default, temporaryBuffer := [] }

/-- `Tokenizer::start(input, cb)` observed through a token-collecting
callback: the sequence of tokens emitted over the whole run. -/
def start (input : List Char) : Outcome (List Token) :=
  runFuel (8 * (input.length + 4)) (initFor input) []

end Hanami.HTML.Tokenizer

namespace Hanami.DOM

open Hanami Hanami.HTML

/-- The HTML namespace constant (`html_namespace` in Node.hpp). -/
def htmlNamespace : List Char := "http://www.w3.org/1999/xhtml".toList

/-- `enum class NodeType` (Node.hpp). -/
inductive NodeType where
  | invalid
  | element
  | attribute
  | text
  | cdataSection
  | entityReference
  | entity
  | processingInstruction
  | commentNode
  | document
  | documentType
  | documentFragment
  | notationNode
deriving DecidableEq, Repr

/-- The dynamic C++ class of an element object, which is also what the
tree builder's `ElementInterface` enum selects in
`create_element_internal`: a plain `Element` or an `HTMLHtmlElement`
(the only two interfaces realised).  `dynamic_cast<HTMLElement*>`
succeeds exactly on the latter. -/
inductive ElementInterface where
  | element
  | htmlHtmlElement
deriving DecidableEq, Repr

/-- One DOM node, flattening the `Node` / `Element` / `CharacterData` /
`Document` / `DocumentType` class hierarchy into a record tagged by
`NodeType` (fields of the other classes keep their defaults).  Pointers
(`m_document`, `m_parent`, the sibling links, the head/body pointers) are
arena indices. -/
structure DNode where
  typ : NodeType := .invalid
  iface : ElementInterface := .element
  namespaceUri : Option (List Char) := none
  namespacePfx : Option (List Char) := none
  localName : List Char := []
  data : List Char := []
  dtName : List Char := []
  dtPublicId : List Char := []
  dtSystemId : List Char := []
  ownerDoc : Option Nat := none
  parent : Option Nat := none
  children : List Nat := []
  prevSibling : Option Nat := none
  nextSibling : Option Nat := none
  headPtr : Option Nat := none
  bodyPtr : Option Nat := none
  scripting : Bool := false
deriving DecidableEq, Repr

/-- The node arena: nodes are identified by their index of creation. -/
structure Dom where
  nodes : List DNode
deriving DecidableEq, Repr

/-- Read a node (pointers are always valid in the runs modelled here). -/
def Dom.get (d : Dom) (i : Nat) : DNode :=
  d.nodes.getD i {}

/-- Overwrite a node in place (a C++ field mutation). -/
def Dom.set (d : Dom) (i : Nat) (n : DNode) : Dom :=
  ⟨d.nodes.set i n⟩

/-- `new ...`: allocate a node, returning the arena and its index. -/
def Dom.add (d : Dom) (n : DNode) : Dom × Nat :=
  (⟨d.nodes ++ [n]⟩, d.nodes.length)

/-- Step 4 of `Node::insert_before`: `std::ranges::find` the reference
child's position in `m_child_nodes` (the end position when it is absent
or null) and insert `node` there. -/
def Node.insertIntoChildVector (d : Dom) (self node : Nat)
    (referenceChild : Option Nat) : Dom :=
  let p := d.get self
  let idx := match referenceChild with
    | some r => p.children.indexOf r
    | none => p.children.length
  d.set self
    { p with children := p.children.take idx ++ [node] ++ p.children.drop idx }

/-- `Node::insert_before(node, child)` (the Source/DOM implementation):
compute the reference child, insert `node` into this node's child vector
before it (`std::ranges::find` yields the end position when the reference
child is absent or null, appending), run the body-pointer hack, then
overwrite the inserted node's owning document and parent.  Sibling links
are not touched.  The body hack dereferences this node's `m_document`,
which traps if that pointer is null. -/
def Node.insertBefore (d : Dom) (self node : Nat) (child : Option Nat) :
    Outcome Dom := do
  -- 2./3. let referenceChild be child; if it is node, node's next sibling
  let referenceChild := if child = some node then (d.get node).nextSibling else child
  -- 4. insert node before referenceChild's position in m_child_nodes
  let d := Node.insertIntoChildVector d self node referenceChild
  -- FIXME(Peter) body hack: dynamic_cast<Element*>(node) with local name
  -- "body" sets m_document->m_body
  let d ←
    if (d.get node).typ = .element && (d.get node).localName = "body".toList then
      match (d.get self).ownerDoc with
      | some docIdx =>
        .ok (d.set docIdx { d.get docIdx with bodyPtr := some node })
      | none => .trap -- null m_document dereference
    else
      .ok d
  -- FIXME(Peter) hack around the proper insertion steps: set the node's
  -- document and parent
  let nd := d.get node
  let nd := { nd with
    ownerDoc := if (d.get self).typ = .document then some self else (d.get self).ownerDoc,
    parent := some self }
  .ok (d.set node nd)

/-- `Node::append_child(node)`: `insert_before(node, nullptr)`. -/
def Node.appendChild (d : Dom) (self node : Nat) : Outcome Dom :=
  Node.insertBefore d self node none

/-- Invariant I2 of the specification, as a decidable check on one
parent: the previous/next sibling links of its children form a doubly
linked list whose two ends are nil and whose order matches the ordered
child list. -/
def siblingLinksOk (d : Dom) (parent : Nat) : Bool :=
  let cs := (d.get parent).children
  (match cs.head? with
   | some h => (d.get h).prevSibling == none
   | none => true) &&
  (match cs.getLast? with
   | some l => (d.get l).nextSibling == none
   | none => true) &&
  (List.zip cs (cs.drop 1)).all fun p =>
    (d.get p.1).nextSibling == some p.2 && (d.get p.2).prevSibling == some p.1

end Hanami.DOM

namespace Hanami.HTML

open Hanami Hanami.DOM

/-- `enum class TreeInsertionMode` (tree_builder.hpp). -/
inductive TreeInsertionMode where
  | initial
  | beforeHTML
  | beforeHead
  | inHead
  | inHeadNoScript
  | afterHead
  | inBody
  | text
  | inTable
  | inTableText
  | inCaption
  | inColumnGroup
  | inTableBody
  | inRow
  | inCell
  | inSelect
  | inSelectInTable
  | inTemplate
  | afterBody
  | inFrameset
  | afterFrameset
  | afterAfterBody
  | afterAfterFrameset
deriving DecidableEq, Repr

/-- `TreeBuilder::FramesetOK`. -/
inductive FramesetOK where
  | isOk
  | notOk
deriving DecidableEq, Repr

/-- The mutable state of a `TreeBuilder` (tree_builder.hpp): the owned
document (index 0 of the arena), the insertion-mode pair, the stack of
open elements (bottom-growing, `emplace_back`/`pop_back`), and the
frameset-ok flag. -/
structure TreeBuilder where
  dom : Dom
  documentIdx : Nat
  insertionMode : TreeInsertionMode
  originalInsertionMode : TreeInsertionMode
  openElements : List Nat
  framesetOk : FramesetOK
deriving DecidableEq, Repr

namespace TreeBuilder

/-- A freshly constructed `TreeBuilder`: a new empty `Document`, both
insertion modes `Initial`, no open elements. -/
def init : TreeBuilder :=
  { dom := ⟨[{ typ := .document }]⟩, documentIdx := 0,
    insertionMode := .initial, originalInsertionMode := .initial,
    openElements := [], framesetOk := .isOk }

/-- `TreeBuilder::current_node`: the bottommost (most recently pushed)
entry of the stack of open elements, null when the stack is empty. -/
def currentNode (st : TreeBuilder) : Option Nat :=
  st.openElements.getLast?

/-- `TreeBuilder::adjusted_current_node`: fragment parsing is not
implemented, so simply the current node. -/
def adjustedCurrentNode (st : TreeBuilder) : Option Nat :=
  currentNode st

/-- `m_open_elements.pop_back()`: undefined (trap) on an empty vector. -/
def popBack (l : List Nat) : Outcome (List Nat) :=
  match l.getLast? with
  | some _ => .ok l.dropLast
  | none => .trap

/-- The `is_special_character_token` lambda of
`TreeBuilder::process_token`: a character token holding tab, LF, FF, CR
or space. -/
def isSpecialCharacterToken (t : Token) : Bool :=
  match t with
  | .char c => c == '\t' || c == '\n' || c == '\x0c' || c == '\r' || c == ' '
  | _ => false

/-- `TreeBuilder::appropriate_insertion_place`: foster parenting is not
implemented, so the location is "inside the current node, after its last
child"; the target's child list is dereferenced, so a null current node
traps.  The returned index is the node inside which the location sits
(the location's iterator is that node's children-end). -/
def appropriateInsertionPlace (st : TreeBuilder) : Outcome Nat :=
  match currentNode st with
  | some t => .ok t
  | none => .trap -- target->m_child_nodes on a null target

/-- `TreeBuilder::insert_character` (tree_builder.cpp): compute the
appropriate place; drop the character when the current node is a
Document; if the node immediately before the location
(`*(adjusted_insertion_location--)`, i.e. the last child, null for an
empty child list) is a Text node, append to its data; otherwise create a
Text node holding the character and insert it at the location. -/
def insertCharacter (st : TreeBuilder) (c : Char) : Outcome TreeBuilder := do
  let loc ← appropriateInsertionPlace st
  match currentNode st with
  | none => .trap
  | some cur =>
    if (st.dom.get cur).typ = .document then
      .ok st
    else
      let mkNew : Outcome TreeBuilder := do
        let (d, n) := st.dom.add
          { typ := .text, data := [c], ownerDoc := (st.dom.get cur).ownerDoc }
        let d ← Node.insertBefore d cur n none
        .ok { st with dom := d }
      match (st.dom.get loc).children.getLast? with
      | some before =>
        if (st.dom.get before).typ = .text then
          let t := st.dom.get before
          .ok { st with dom := st.dom.set before { t with data := t.data ++ [c] } }
        else
          mkNew
      | none => mkNew

/-- `TreeBuilder::insert_comment`: the location is the given position or
the appropriate place; the new Comment's document is read through the
current node (a null current node is a null dereference); the insertion
itself is `current_node()->insert_before(comment, *location)`, and the
location's iterator is at an end position in every call, so the reference
child is null. -/
def insertComment (st : TreeBuilder) (data : List Char) (pos : Option Nat) :
    Outcome TreeBuilder := do
  let _loc ← match pos with
    | some p => Outcome.ok p
    | none => appropriateInsertionPlace st
  match currentNode st with
  | none => .trap -- current_node()->m_document on null
  | some cur =>
    let (d, n) := st.dom.add
      { typ := .commentNode, data := data, ownerDoc := (st.dom.get cur).ownerDoc }
    let d ← Node.insertBefore d cur n none
    .ok { st with dom := d }

/-- `TreeBuilder::insert_element_at_adjusted_insertion_location`: the
early-return guard only fires when the current node is a Document whose
first child is an element (dereferencing a missing first child is
undefined); then `current_node()->insert_before(element, *location)`
with the location's end iterator dereferencing to null. -/
def insertElementAtAdjustedInsertionLocation (st : TreeBuilder) (element : Nat) :
    Outcome TreeBuilder := do
  match currentNode st with
  | none => .trap -- current_node()->insert_before on null
  | some cur =>
    if (st.dom.get cur).typ = .document then
      match (st.dom.get cur).children.head? with
      | some fc =>
        if (st.dom.get fc).typ = .element then
          .ok st
        else do
          let d ← Node.insertBefore st.dom cur element none
          .ok { st with dom := d }
      | none => .trap -- first_child() null dereference
    else do
      let d ← Node.insertBefore st.dom cur element none
      .ok { st with dom := d }

/-- `TreeBuilder::create_element_internal`: allocate a plain `Element` or
an `HTMLHtmlElement` according to the interface and set its namespace,
prefix, local name and node document. -/
def createElementInternal (d : Dom) (interface : ElementInterface)
    (localName : List Char) (elementNamespace : Option (List Char))
    (pfx : Option (List Char)) (docIdx : Option Nat) : Dom × Nat :=
  d.add { typ := .element, iface := interface,
          namespaceUri := elementNamespace, namespacePfx := pfx,
          localName := localName, ownerDoc := docIdx }

/-- `TreeBuilder::create_element` (custom elements are not implemented,
so only the final branch is live): pick `HTMLHtmlElement` exactly for
local name "html" in the HTML namespace, create the element, then the
custom-element-state step raises SIGTRAP when an `is` value is present
on an HTML-namespace element. -/
def createElement (d : Dom) (docIdx : Option Nat) (localName : List Char)
    (elementNamespace : Option (List Char)) (pfx : Option (List Char))
    (isVal : Option (List Char)) : Outcome (Dom × Nat) :=
  let interface : ElementInterface :=
    if localName = "html".toList && elementNamespace = some htmlNamespace then
      .htmlHtmlElement
    else
      .element
  let (d, n) := createElementInternal d interface localName elementNamespace pfx docIdx
  if elementNamespace = some htmlNamespace && isVal.isSome then
    .trap -- TODO(): custom element state
  else
    .ok (d, n)

/-- `TreeBuilder::create_element_for_token`: extract the tag token (the
visitor's default arm raises SIGTRAP on any non-tag token), read the
intended parent's node document and the token's `is` attribute, and
create the element.  The token's attributes are NOT copied onto the
element (that step is an open TODO in the source). -/
def createElementForToken (d : Dom) (t : Token)
    (elementNamespace : Option (List Char)) (intendedParent : Nat) :
    Outcome (Dom × Nat) :=
  match t with
  | .startTag n _ attrs =>
    createElement d (d.get intendedParent).ownerDoc n elementNamespace none
      (getTokenAttributeValue attrs "is".toList)
  | .endTag n _ attrs =>
    createElement d (d.get intendedParent).ownerDoc n elementNamespace none
      (getTokenAttributeValue attrs "is".toList)
  | _ => .trap -- visitor default arm: raise(SIGTRAP)

/-- `TreeBuilder::insert_foreign_element`: compute the place, create the
element for the token with the current node as intended parent, insert it
at the place (unless only the stack is to be updated), and push it onto
the stack of open elements. -/
def insertForeignElement (st : TreeBuilder) (t : Token)
    (elementNamespace : Option (List Char)) (onlyAddToElementStack : Bool) :
    Outcome (TreeBuilder × Nat) := do
  let _loc ← appropriateInsertionPlace st
  match currentNode st with
  | none => .trap
  | some cur => do
    let (d, element) ← createElementForToken st.dom t elementNamespace cur
    let st := { st with dom := d }
    let st ←
      if !onlyAddToElementStack then
        insertElementAtAdjustedInsertionLocation st element
      else
        Outcome.ok st
    .ok ({ st with openElements := st.openElements ++ [element] }, element)

/-- `TreeBuilder::insert_html_element`: a foreign-element insertion in
the HTML namespace. -/
def insertHtmlElement (st : TreeBuilder) (t : Token) :
    Outcome (TreeBuilder × Nat) :=
  insertForeignElement st t (some htmlNamespace) false

/-- `TreeBuilder::parse_generic_rcdata_element`: insert an HTML element
for the token, switch the tokenizer to RAWTEXT or RCDATA (returned as the
tokenizer-state override), save the insertion mode and enter Text mode. -/
def parseGenericRcdataElement (st : TreeBuilder) (t : Token)
    (genericRawTextParse : Bool) :
    Outcome (TreeBuilder × Option Tokenizer.State) := do
  let (st, _) ← insertHtmlElement st t
  let override :=
    if genericRawTextParse then Tokenizer.State.rawtext else Tokenizer.State.rcdata
  .ok ({ st with originalInsertionMode := st.insertionMode,
                 insertionMode := .text }, some override)

/-- `TreeBuilder::stop_parsing`: pop all the nodes off the stack of open
elements (the remaining steps are stubs or I/O). -/
def stopParsing (st : TreeBuilder) : TreeBuilder :=
  { st with openElements := [] }

end TreeBuilder

end Hanami.HTML

namespace Hanami.HTML.TreeBuilder

open Hanami Hanami.DOM Hanami.HTML

/-- Result of one insertion-mode arm: updated builder, an optional
tokenizer-state override (from `m_tokenizer->set_state`), and the
reprocess flag of the dispatch loop. -/
abbrev ArmResult := Outcome (TreeBuilder × Option Tokenizer.State × Bool)

/-- The `Initial` insertion mode arm of `TreeBuilder::process_token`. -/
def processInitial (st : TreeBuilder) (t : Token) : ArmResult :=
  if isSpecialCharacterToken t then
    .ok (st, none, false)
  else
    match t with
    | .comment d => do
      -- insert a comment as the last child of the Document object
      let st ← insertComment st d (some st.documentIdx)
      .ok (st, none, false)
    | .doctype n pub sys _ => do
      -- append a DocumentType node to the Document node
      let (d, dt) := st.dom.add
        { typ := .documentType, dtName := n,
          dtPublicId := pub.getD [], dtSystemId := sys.getD [] }
      let d ← Node.appendChild d st.documentIdx dt
      .ok ({ st with dom := d, insertionMode := .beforeHTML }, none, false)
    | _ =>
      -- anything else: switch to "before html", reprocess
      .ok ({ st with insertionMode := .beforeHTML }, none, true)

/-- The `BeforeHTML` insertion mode arm. -/
def processBeforeHTML (st : TreeBuilder) (t : Token) : ArmResult :=
  let anythingElse : ArmResult := do
    -- create an html element (a bare `new HTMLHtmlElement()`, whose
    -- namespace and local name fields keep their defaults) whose node
    -- document is the Document, append it, push it, reprocess
    let (d, element) := st.dom.add
      { typ := .element, iface := .htmlHtmlElement,
        ownerDoc := some st.documentIdx }
    let d ← Node.appendChild d st.documentIdx element
    .ok ({ st with dom := d,
                   openElements := st.openElements ++ [element],
                   insertionMode := .beforeHead }, none, true)
  match t with
  | .doctype _ _ _ _ => .ok (st, none, false) -- parse error, ignore
  | .comment d => do
    let st ← insertComment st d (some st.documentIdx)
    .ok (st, none, false)
  | _ =>
    if isSpecialCharacterToken t then
      .ok (st, none, false)
    else if tokenIsStartTag t "html".toList then do
      let (d, element) ← createElementForToken st.dom t (some htmlNamespace)
        st.documentIdx
      let d ← Node.appendChild d st.documentIdx element
      .ok ({ st with dom := d,
                     openElements := st.openElements ++ [element],
                     insertionMode := .beforeHead }, none, false)
    else
      match t with
      | .endTag n _ _ =>
        if n = "head".toList || n = "body".toList || n = "html".toList ||
           n = "br".toList then
          anythingElse
        else
          .ok (st, none, false) -- any other end tag: parse error, ignore
      | _ => anythingElse

/-- The `BeforeHead` insertion mode arm. -/
def processBeforeHead (st : TreeBuilder) (t : Token) : ArmResult :=
  let anythingElse : ArmResult := do
    -- the source passes the CURRENT token (not a fabricated "head" start
    -- tag) to insert_html_element here
    let (st, head) ← insertHtmlElement st t
    let st := { st with
      dom := st.dom.set st.documentIdx
        { st.dom.get st.documentIdx with headPtr := some head } }
    .ok ({ st with insertionMode := .inHead }, none, true)
  if isSpecialCharacterToken t then
    .ok (st, none, false)
  else
    match t with
    | .comment d => do
      let st ← insertComment st d none
      .ok (st, none, false)
    | .doctype _ _ _ _ => .ok (st, none, false)
    | .startTag n _ _ =>
      if n = "html".toList then
        .trap -- TODO(): rules for "in body"
      else if n = "head".toList then do
        let (st, head) ← insertHtmlElement st t
        let st := { st with
          dom := st.dom.set st.documentIdx
            { st.dom.get st.documentIdx with headPtr := some head } }
        .ok ({ st with insertionMode := .inHead }, none, false)
      else
        anythingElse
    | .endTag n _ _ =>
      if n = "head".toList || n = "body".toList || n = "html".toList ||
         n = "br".toList then
        anythingElse
      else
        .ok (st, none, false) -- any other end tag: parse error, ignore
    | _ => anythingElse

/-- The `InHead` insertion mode arm. -/
def processInHead (st : TreeBuilder) (t : Token) : ArmResult :=
  let anythingElse : ArmResult := do
    -- pop the current node (the head element), switch to AfterHead,
    -- reprocess
    let oe ← popBack st.openElements
    .ok ({ st with openElements := oe, insertionMode := .afterHead },
      none, true)
  if isSpecialCharacterToken t then
    match t with
    | .char c => do
      let st ← insertCharacter st c
      .ok (st, none, false)
    | _ => .trap -- unreachable: special character tokens are characters
  else
    match t with
    | .comment d => do
      let st ← insertComment st d none
      .ok (st, none, false)
    | .doctype _ _ _ _ => .ok (st, none, false)
    | .startTag n _ _ =>
      if n = "html".toList then
        .trap -- TODO(): rules for "in body"
      else if n = "base".toList || n = "basefont".toList ||
              n = "bgsound".toList || n = "link".toList then
        .trap -- TODO()
      else if n = "meta".toList then do
        let (st, _) ← insertHtmlElement st t
        let oe ← popBack st.openElements
        -- the self-closing acknowledgement visitor only inspects
        -- EndTagToken, so it has no effect on this start tag
        .ok ({ st with openElements := oe }, none, false)
      else if n = "title".toList then do
        let (st, override) ← parseGenericRcdataElement st t false
        .ok (st, override, false)
      else if (n = "noscript".toList &&
                (st.dom.get st.documentIdx).scripting) ||
              (n = "noframes".toList || n = "style".toList) then
        .trap -- TODO(): generic raw text parsing
      else if n = "noscript".toList &&
              !(st.dom.get st.documentIdx).scripting then
        .trap -- TODO()
      else if n = "script".toList then
        .trap -- TODO()
      else if n = "template".toList then
        .trap -- TODO()
      else
        -- a start tag whose tag name is "head": parse error, ignore
        if n = "head".toList then
          .ok (st, none, false)
        else
          anythingElse
    | .endTag n _ _ =>
      if n = "head".toList then do
        let oe ← popBack st.openElements
        .ok ({ st with openElements := oe, insertionMode := .afterHead },
          none, false)
      else if n = "body".toList || n = "html".toList || n = "br".toList then do
        let oe ← popBack st.openElements
        .ok ({ st with openElements := oe, insertionMode := .afterHead },
          none, true)
      else if n = "template".toList then
        .trap -- TODO()
      else
        .ok (st, none, false) -- any other end tag: parse error, ignore
    | _ => anythingElse

/-- The `Text` insertion mode arm. -/
def processText (st : TreeBuilder) (t : Token) : ArmResult :=
  match t with
  | .char c => do
    let st ← insertCharacter st c
    .ok (st, none, false)
  | .eof => do
    -- parse error; pop the current node; switch to the original
    -- insertion mode and reprocess
    let oe ← popBack st.openElements
    .ok ({ st with openElements := oe,
                   insertionMode := st.originalInsertionMode }, none, true)
  | .endTag n _ _ =>
    if n = "script".toList then
      .trap -- TODO()
    else do
      let oe ← popBack st.openElements
      .ok ({ st with openElements := oe,
                     insertionMode := st.originalInsertionMode }, none, false)
  | _ => .ok (st, none, false) -- falls to the final break

/-- The `AfterHead` insertion mode arm. -/
def processAfterHead (st : TreeBuilder) (t : Token) : ArmResult :=
  if tokenIsCharacter t '\t' || tokenIsCharacter t '\n' ||
     tokenIsCharacter t '\x0c' || tokenIsCharacter t '\r' ||
     tokenIsCharacter t ' ' then
    match t with
    | .char c => do
      let st ← insertCharacter st c
      .ok (st, none, false)
    | _ => .trap -- unreachable
  else
    match t with
    | .comment d => do
      let st ← insertComment st d none
      .ok (st, none, false)
    | .doctype _ _ _ _ => .ok (st, none, false)
    | .startTag n _ _ =>
      if n = "html".toList then
        .trap -- TODO(): rules for "in body"
      else if n = "body".toList then do
        let (st, _) ← insertHtmlElement st t
        .ok ({ st with framesetOk := .notOk, insertionMode := .inBody },
          none, false)
      else if n = "frameset".toList then
        .trap -- TODO()
      else if n = "base".toList || n = "basefont".toList ||
              n = "bgsound".toList || n = "link".toList ||
              n = "meta".toList || n = "noframes".toList ||
              n = "script".toList || n = "style".toList ||
              n = "template".toList || n = "title".toList then
        .trap -- TODO()
      else if n = "head".toList then
        .ok (st, none, false) -- parse error, ignore
      else
        .trap -- anything else: TODO()
    | .endTag _ _ _ =>
      .trap -- the unconditional end-tag block ends in TODO()
    | _ =>
      .trap -- anything else: TODO()

/-- The long `generate implied end tags` loop of the InBody
block-element end-tag arm: pop while the current node is one of the
implied-end-tag names.  `current_node_is_any_of` dereferences the
current node, so an empty stack traps. -/
def generateImpliedLoop (d : Dom) : Nat → List Nat → Outcome (List Nat)
  | 0, _ => .outOfFuel
  | fuel + 1, oe =>
    match oe.getLast? with
    | none => .trap -- current_node()->local_name on null
    | some cur =>
      if ["dd", "dt", "li", "optgroup", "option", "p", "rb", "rp", "rt",
          "rtc"].any (fun tag => (d.get cur).localName == tag.toList) then
        generateImpliedLoop d fuel oe.dropLast
      else
        .ok oe

/-- The `while (auto* current = current_node())` pop loop of the same
arm: pop until an element with the token's tag name has been popped (a
null current node ends the loop). -/
def popUntilTagName (d : Dom) (name : List Char) :
    Nat → List Nat → Outcome (List Nat)
  | 0, _ => .outOfFuel
  | fuel + 1, oe =>
    match oe.getLast? with
    | none => .ok oe
    | some cur =>
      let oe := oe.dropLast
      if (d.get cur).localName == name then
        .ok oe
      else
        popUntilTagName d name fuel oe

/-- The `InBody` insertion mode arm: the character arms and a handful of
tag arms are implemented, everything else is an explicit TODO()
(SIGTRAP).  The comment arm tests `token_is<CharacterToken>` — a
copy-paste slip — and therefore never fires: comment tokens fall through
every test to the final break and are dropped. -/
def processInBody (st : TreeBuilder) (t : Token) : ArmResult :=
  if tokenIsCharacter t '\x00' then
    .ok (st, none, false) -- parse error, ignore
  else if tokenIsCharacter t '\t' || tokenIsCharacter t '\n' ||
          tokenIsCharacter t '\x0c' || tokenIsCharacter t '\r' ||
          tokenIsCharacter t ' ' then
    match t with
    | .char c => do
      let st ← insertCharacter st c
      .ok (st, none, false)
    | _ => .trap -- unreachable
  else
    match t with
    | .char c => do
      -- any other character token
      let st ← insertCharacter st c
      .ok ({ st with framesetOk := .notOk }, none, false)
    | _ =>
      -- "A comment token": the source tests token_is<CharacterToken>,
      -- false for every token reaching this point
      if (match t with | .char _ => true | _ => false) then
        .trap -- TODO() (dead code)
      else if (match t with | .doctype _ _ _ _ => true | _ => false) then
        .trap -- TODO()
      else if tokenIsStartTag t "html".toList then
        .trap -- TODO()
      else if tokenIsStartTagAnyOf t
          (["base", "basefont", "bgsound", "link", "meta", "noframes",
            "script", "style", "template", "title"].map String.toList) ||
          tokenIsEndTag t "template".toList then
        .trap -- TODO()
      else if tokenIsStartTag t "body".toList then
        .trap -- TODO()
      else if tokenIsStartTag t "frameset".toList then
        .trap -- TODO()
      else if (match t with | .eof => true | _ => false) then
        .trap -- TODO(): stop parsing
      else if tokenIsEndTag t "body".toList then
        .ok ({ st with insertionMode := .afterBody }, none, false)
      else if tokenIsEndTag t "html".toList then
        .trap -- TODO()
      else if tokenIsStartTagAnyOf t
          (["address", "article", "aside", "blockquote", "center",
            "details", "dialog", "dir", "div", "dl", "fieldset",
            "figcaption", "figure", "footer", "header", "hgroup", "main",
            "menu", "nav", "ol", "p", "search", "section", "summary",
            "ul"].map String.toList) then
        -- the close-a-p-element step: the loop over the open elements
        -- raises TODO() as soon as any open element is a p
        if st.openElements.any
            (fun e => (st.dom.get e).localName == "p".toList) then
          .trap -- TODO()
        else do
          let (st, _) ← insertHtmlElement st t
          .ok (st, none, false)
      else if tokenIsStartTagAnyOf t
          (["h1", "h2", "h3", "h4", "h5", "h6"].map String.toList) then
        .trap -- TODO()
      else if tokenIsStartTagAnyOf t (["pre", "listing"].map String.toList) then
        .trap -- TODO()
      else if tokenIsStartTag t "form".toList then
        .trap -- TODO()
      else if tokenIsStartTag t "li".toList then
        .trap -- TODO()
      else if tokenIsStartTagAnyOf t (["dd", "dt"].map String.toList) then
        .trap -- TODO()
      else if tokenIsStartTag t "plaintext".toList then
        .trap -- TODO()
      else if tokenIsStartTag t "button".toList then
        .trap -- TODO()
      else if tokenIsEndTagAnyOf t
          (["address", "article", "aside", "blockquote", "button",
            "center", "details", "dialog", "dir", "div", "dl", "fieldset",
            "figcaption", "figure", "footer", "header", "hgroup",
            "listing", "main", "menu", "nav", "ol", "pre", "search",
            "section", "summary", "ul"].map String.toList) then do
        let oe ← generateImpliedLoop st.dom (st.openElements.length + 1)
          st.openElements
        -- if the current node is an HTML element with the token's name
        -- (dynamic_cast<HTMLElement*> only succeeds on HTMLHtmlElement)
        let checkTrap : Bool := match oe.getLast? with
          | some cur =>
            (st.dom.get cur).iface == .htmlHtmlElement &&
              (st.dom.get cur).localName == tokenTagName t
          | none => false
        if checkTrap then
          .trap -- TODO()
        else do
          let oe ← popUntilTagName st.dom (tokenTagName t) (oe.length + 1) oe
          .ok ({ st with openElements := oe }, none, false)
      else if tokenIsEndTag t "form".toList then
        .trap -- TODO()
      else if tokenIsEndTag t "p".toList then
        .trap -- TODO()
      else if tokenIsEndTag t "li".toList then
        .trap -- TODO()
      else if tokenIsEndTagAnyOf t (["dd", "dt"].map String.toList) then
        .trap -- TODO()
      else if tokenIsEndTagAnyOf t
          (["h1", "h2", "h3", "h4", "h5", "h6"].map String.toList) then
        .trap -- TODO()
      -- an end tag whose tag name is "sarcasm" has an empty arm and
      -- falls through
      else if tokenIsStartTag t "a".toList then
        .trap -- TODO()
      else if tokenIsStartTagAnyOf t
          (["b", "big", "code", "em", "font", "i", "s", "small", "strike",
            "strong", "tt", "u"].map String.toList) then
        .trap -- TODO()
      else if tokenIsStartTag t "nobr".toList then
        .trap -- TODO()
      else if tokenIsEndTagAnyOf t
          (["applet", "marquee", "object"].map String.toList) then
        .trap -- TODO()
      else if tokenIsStartTag t "table".toList then
        .trap -- TODO()
      else if tokenIsEndTag t "br".toList then
        .trap -- TODO()
      else if tokenIsStartTagAnyOf t
          (["area", "br", "embed", "img", "keygen", "wbr"].map
            String.toList) then do
        let (st, _) ← insertHtmlElement st t
        let oe ← popBack st.openElements
        .ok ({ st with openElements := oe, framesetOk := .notOk },
          none, false)
      else if tokenIsStartTag t "input".toList then do
        let (st, _) ← insertHtmlElement st t
        let oe ← popBack st.openElements
        let st := { st with openElements := oe }
        let ty := (match t with
          | .startTag _ _ attrs => getTokenAttributeValue attrs "type".toList
          | _ => none).getD []
        -- note: the source sets frameset-ok to "not ok" when the type IS
        -- "hidden" (the spec's condition, inverted)
        if equalsCaseInsensitive ty "hidden".toList then
          .ok ({ st with framesetOk := .notOk }, none, false)
        else
          .ok (st, none, false)
      else if tokenIsStartTagAnyOf t
          (["param", "source", "track"].map String.toList) then
        .trap -- TODO()
      else if tokenIsStartTag t "hr".toList then
        .trap -- TODO()
      else if tokenIsStartTag t "image".toList then
        .trap -- TODO()
      else if tokenIsStartTag t "textarea".toList then
        .trap -- TODO()
      else if tokenIsStartTag t "xmp".toList then
        .trap -- TODO()
      else if tokenIsStartTag t "iframe".toList then
        .trap -- TODO()
      else if tokenIsStartTag t "noembed".toList ||
              (tokenIsStartTag t "noscript".toList &&
                (st.dom.get st.documentIdx).scripting) then
        .trap -- TODO()
      else if tokenIsStartTag t "select".toList then
        .trap -- TODO()
      else if tokenIsStartTagAnyOf t
          (["optgroup", "option"].map String.toList) then
        .trap -- TODO()
      else if tokenIsStartTagAnyOf t (["rb", "rtc"].map String.toList) then
        .trap -- TODO()
      else if tokenIsStartTagAnyOf t (["rp", "rt"].map String.toList) then
        .trap -- TODO()
      else if tokenIsStartTag t "math".toList then
        .trap -- TODO()
      else if tokenIsStartTag t "svg".toList then
        .trap -- TODO()
      else if tokenIsStartTagAnyOf t
          (["caption", "col", "colgroup", "frame", "head", "tbody", "td",
            "tfoot", "th", "thead", "tr"].map String.toList) then
        .trap -- TODO(): parse error, ignore
      else if (match t with | .startTag _ _ _ => true | _ => false) then
        .trap -- any other start tag: TODO()
      -- "Any other end tag" also tests token_is<StartTagToken> (a second
      -- copy-paste slip), so it never fires either
      else if (match t with | .startTag _ _ _ => true | _ => false) then
        .trap -- TODO() (dead code)
      else
        .ok (st, none, false) -- final break: the token is dropped

/-- The `AfterBody` insertion mode arm. -/
def processAfterBody (st : TreeBuilder) (t : Token) : ArmResult :=
  if tokenIsCharacter t '\t' || tokenIsCharacter t '\n' ||
     tokenIsCharacter t '\x0c' || tokenIsCharacter t '\r' ||
     tokenIsCharacter t ' ' then
    match t with
    | .char c => do
      let st ← insertCharacter st c
      .ok (st, none, false)
    | _ => .trap -- unreachable
  else
    match t with
    | .comment _ => .trap -- TODO()
    | .doctype _ _ _ _ => .ok (st, none, false)
    | _ =>
      if tokenIsStartTag t "html".toList then
        .trap -- TODO()
      else if tokenIsEndTag t "html".toList then
        .trap -- TODO()
      else if (match t with | .eof => true | _ => false) then
        .ok (stopParsing st, none, false)
      else
        -- anything else: switch to "in body", reprocess
        .ok ({ st with insertionMode := .inBody }, none, true)

/-- The tree construction dispatcher's condition for handling a token
under the current insertion mode (HTML content): empty stack of open
elements, adjusted current node in the HTML namespace, or an end-of-file
token.  (The integration-point conditions are open TODOs.) -/
def dispatchToHtmlRules (st : TreeBuilder) (t : Token) : Bool :=
  st.openElements.isEmpty ||
  (match adjustedCurrentNode st with
   | some i => (st.dom.get i).namespaceUri == some htmlNamespace
   | none => false) ||
  (match t with | .eof => true | _ => false)

/-- The `do { ... } while (reprocess)` dispatch loop of
`TreeBuilder::process_token`.  When the condition selects foreign
content, the else branch of the source is empty: the token is dropped.
Insertion modes without an implemented arm hit the switch's `default:`
TODO().  The accumulated tokenizer-state override (the latest
`set_state` call) is threaded through. -/
def processTokenLoop :
    Nat → TreeBuilder → Token → Option Tokenizer.State →
    Outcome (TreeBuilder × Option Tokenizer.State)
  | 0, _, _, _ => .outOfFuel
  | fuel + 1, st, t, ov =>
    if dispatchToHtmlRules st t then
      let arm : ArmResult :=
        match st.insertionMode with
        | .initial => processInitial st t
        | .beforeHTML => processBeforeHTML st t
        | .beforeHead => processBeforeHead st t
        | .inHead => processInHead st t
        | .text => processText st t
        | .afterHead => processAfterHead st t
        | .inBody => processInBody st t
        | .afterBody => processAfterBody st t
        | _ => .trap -- default: TODO()
      match arm with
      | .ok (st', ov', reprocess) =>
        let ov'' := match ov' with | some s => some s | none => ov
        if reprocess then
          processTokenLoop fuel st' t ov''
        else
          .ok (st', ov'')
      | .trap => .trap
      | .outOfFuel => .outOfFuel
    else
      .ok (st, ov) -- foreign content rules: empty branch, token dropped

/-- `TreeBuilder::process_token(token)`: run the dispatch loop.  Eight
units of fuel cover every realisable reprocess chain (the longest is
Initial → BeforeHTML → BeforeHead → InHead → AfterHead). -/
def processToken (st : TreeBuilder) (t : Token) :
    Outcome (TreeBuilder × Option Tokenizer.State) :=
  processTokenLoop 8 st t none

end Hanami.HTML.TreeBuilder

namespace Hanami.HTML

open Hanami Hanami.DOM

/-- Deliver a burst of tokens emitted during one tokenizer step to the
tree builder, in order; a `set_state` performed by the tree builder while
handling a token is applied to the tokenizer before the next token. -/
def feedTokens (tk : Tokenizer) (tb : TreeBuilder) :
    List Token → Outcome (Tokenizer × TreeBuilder)
  | [] => .ok (tk, tb)
  | t :: rest => do
    let (tb', ov) ← TreeBuilder.processToken tb t
    let tk' := match ov with
      | some s => { tk with state := s }
      | none => tk
    feedTokens tk' tb' rest

/-- The combined `Tokenizer::start` loop with the parser's emit callback
(`m_tree_builder.process_token`): step the tokenizer, hand each emitted
token to the tree builder, stop on `Abort`. -/
def parseLoop : Nat → Tokenizer → TreeBuilder → Outcome TreeBuilder
  | 0, _, _ => .outOfFuel
  | fuel + 1, tk, tb =>
    match Tokenizer.processNextToken tk with
    | .ok (tk', toks, res) => do
      let (tk'', tb') ← feedTokens tk' tb toks
      match res with
      | .abort => .ok tb'
      | .cont => parseLoop fuel tk'' tb'
    | .trap => .trap
    | .outOfFuel => .outOfFuel

/-- `Parser::parse(html)`: normalise the input stream, then start the
tokenizer with the tree builder as the emit callback; the resulting tree
builder owns the produced Document. -/
def Parser.parse (input : List Char) : Outcome TreeBuilder :=
  let stream := Parser.normalizeInputStream input
  parseLoop (8 * (stream.length + 8)) (Tokenizer.initFor stream)
    TreeBuilder.init

end Hanami.HTML

namespace Hanami

/-- Observation helper: the value of a successful outcome. -/
def Outcome.toOption {α : Type} : Outcome α → Option α
  | .ok a => some a
  | _ => none

end Hanami

namespace Hanami.HTML

open Hanami Hanami.DOM

/-- Helper for claim C1: in the RCDATA state with the input exhausted,
`process_next_token` consumes nothing, emits an EOF token, and returns
`Continue` with the tokenizer state unchanged (the arm's `break` skips
the `return ProcessResult::Abort` every other EOF arm performs). -/
theorem rcdata_eof_step_fixpoint (tk : Tokenizer)
    (hstate : tk.state = .rcdata)
    (heof : tk.inputStream.length ≤ tk.currentCharIdx) :
    Tokenizer.processNextToken tk = .ok (tk, [Token.eof], .cont) := by
  have hc : tk.inputStream.length < tk.currentCharIdx + 1 :=
    Nat.lt_succ_of_le heof
  simp [Tokenizer.processNextToken, hstate, Tokenizer.consumeNextCharacter,
    hc, Tokenizer.reachedEof, heof, Tokenizer.emitTok]

/-- C1: REFUTED.  The tokenizer need not terminate: when the tree builder
has switched it into the RCDATA state and the input is exhausted, every
`process_next_token` step emits an EOF token and returns `Continue` with
unchanged state, so the `while (true)` loop of `Tokenizer::start` never
exits — for every amount of fuel, the run is still unfinished. -/
theorem tokenizer_start_rcdata_eof_diverges (n : Nat) (tk : Tokenizer)
    (acc : List Token)
    (hstate : tk.state = .rcdata)
    (heof : tk.inputStream.length ≤ tk.currentCharIdx) :
    Tokenizer.runFuel n tk acc = .outOfFuel := by
  induction n generalizing acc with
  | zero => rfl
  | succ n ih =>
    rw [Tokenizer.runFuel, rcdata_eof_step_fixpoint tk hstate heof]
    exact ih (acc ++ [Token.eof])

/-- A tokenizer stuck at end of input in the RCDATA state (as after the
tree builder's generic-RCDATA switch once the stream is exhausted). -/
def rcdataStuck : Tokenizer :=
  { Tokenizer.initFor [] with state := .rcdata }

/-- C1 witness: the divergence theorem applied at a concrete stuck
tokenizer. -/
theorem tokenizer_start_rcdata_eof_diverges_witness :
    rcdataStuck.state = .rcdata ∧
    rcdataStuck.inputStream.length ≤ rcdataStuck.currentCharIdx ∧
    Tokenizer.runFuel 5 rcdataStuck [] = .outOfFuel :=
  ⟨rfl, by decide,
    tokenizer_start_rcdata_eof_diverges 5 rcdataStuck [] rfl (by decide)⟩

/-- Attribute names of a tag token are pairwise distinct (the property
claim C2 asserts of every emitted tag token). -/
def tagAttributeNamesUnique (t : Token) : Prop :=
  match t with
  | .startTag _ _ attrs => (attrs.map TagAttribute.name).Nodup
  | .endTag _ _ attrs => (attrs.map TagAttribute.name).Nodup
  | _ => True

instance (t : Token) : Decidable (tagAttributeNamesUnique t) := by
  unfold tagAttributeNamesUnique
  cases t <;> infer_instance

/-- C2: REFUTED.  Tokenizing `<div a="1" a="2">` emits a start tag whose
attribute list keeps both attributes named "a": no duplicate check is
performed when an attribute is finalised, so the emitted token's
attribute names are not pairwise distinct. -/
theorem tokenize_duplicate_attribute_names :
    Legacy.tokenize "<div a=\"1\" a=\"2\">".toList =
      .ok [.startTag "div".toList false
            [⟨"a".toList, "1".toList⟩, ⟨"a".toList, "2".toList⟩], .eof] ∧
    ¬ tagAttributeNamesUnique
        (.startTag "div".toList false
          [⟨"a".toList, "1".toList⟩, ⟨"a".toList, "2".toList⟩]) :=
  ⟨by decide, by decide⟩

/-- C2 amended: the tokenizer appends every finalised attribute to the
current tag token unconditionally, so duplicate names survive in source
order: both the legacy batch tokenizer and the current tokenizer (which
needs a trailing character, since its EOF check swallows the final input
character) deliver `<div a="1" a="2">` as a start tag carrying the two
attributes a="1" and a="2" in order. -/
theorem tokenize_keeps_duplicate_attributes_in_order :
    Legacy.tokenize "<div a=\"1\" a=\"2\">".toList =
      .ok [.startTag "div".toList false
            [⟨"a".toList, "1".toList⟩, ⟨"a".toList, "2".toList⟩], .eof] ∧
    Tokenizer.start "<div a=\"1\" a=\"2\"> ".toList =
      .ok [.startTag "div".toList false
            [⟨"a".toList, "1".toList⟩, ⟨"a".toList, "2".toList⟩], .eof] :=
  ⟨by decide, by decide⟩

/-- C3: REFUTED (code bug).  Processing a non-whitespace character token
from the initial insertion mode reaches BeforeHTML's "anything else"
rule, which fabricates the document's HTMLHtmlElement with a bare
`new HTMLHtmlElement()`: the element is appended to the Document (child
index 1) but its namespace URI is null and its local name is the empty
string, not "http://www.w3.org/1999/xhtml" / "html". -/
theorem fabricated_html_element_is_blank :
    ((TreeBuilder.processToken TreeBuilder.init (.char 'x')).toOption.map
      fun p =>
        ((p.1.dom.get 0).children, (p.1.dom.get 1).iface,
          (p.1.dom.get 1).namespaceUri, (p.1.dom.get 1).localName,
          p.1.openElements))
    = some ([1], .htmlHtmlElement, none, [], [1]) := by
  rfl

/-- C5: REFUTED (code bug).  On the input `<html` the tokenizer discards
the unfinished tag and emits only EOF; reprocessing that EOF in the
BeforeHead insertion mode hands the EOF token itself to
`insert_html_element`, whose `create_element_for_token` visitor hits its
SIGTRAP arm: the parse traps instead of returning a Document. -/
theorem parse_unclosed_html_traps :
    Tokenizer.start "<html".toList = .ok [.eof] ∧
    Parser.parse "<html".toList = .trap :=
  ⟨by decide, by decide⟩

/-- C6: REFUTED.  Parsing `<title>&amp;</title>` traps: the blank
fabricated html root sends the title start tag into the (empty) foreign
content branch, the tokenizer stays in the Data state, and on `&` it
reconsumes into the NamedCharacterReference state, whose arm begins with
`raise(SIGTRAP)`; no title element with a Text child "&" is produced. -/
theorem parse_title_charref_traps :
    Parser.parse "<title>&amp;</title>".toList = .trap := by
  decide

/-- A tokenizer about to execute the unimplemented named character
reference state. -/
def namedCharRefTk : Tokenizer :=
  { Tokenizer.initFor "&amp;".toList with state := .namedCharacterReference }

/-- C6 amended: the named character reference state is unimplemented —
every step taken in it raises SIGTRAP — and consequently the parse of
`<title>&amp;</title>` traps instead of producing a title element whose
Text child is "&". -/
theorem named_character_reference_unimplemented :
    (∀ tk : Tokenizer, tk.state = .namedCharacterReference →
      Tokenizer.processNextToken tk = .trap) ∧
    Parser.parse "<title>&amp;</title>".toList = .trap := by
  constructor
  · intro tk h
    simp [Tokenizer.processNextToken, h]
  · decide

/-- C6 amended witness: the trap theorem applied at a concrete tokenizer
in the named character reference state. -/
theorem named_character_reference_unimplemented_witness :
    namedCharRefTk.state = .namedCharacterReference ∧
    Tokenizer.processNextToken namedCharRefTk = .trap :=
  ⟨rfl, named_character_reference_unimplemented.1 namedCharRefTk rfl⟩

/-- C8: REFUTED for the current tokenizer.  On `<!--x` it emits the
pending comment token and then EOF, but with data "" rather than "x":
`reached_eof()` is checked after the consume, so the final character `x`
is treated as end of input and never appended. -/
theorem start_mid_comment_swallows_last_char :
    Tokenizer.start "<!--x".toList = .ok [.comment [], .eof] ∧
    ([] : List Char) ≠ "x".toList :=
  ⟨by decide, by decide⟩

/-- C8 amended: input ending mid-comment emits the pending comment token
and then EOF as the final token in both generations, but the data
differs: the legacy batch tokenizer emits the comment accumulated so far
("x" for `<!--x`), while the current tokenizer's post-consume EOF check
swallows the final character and emits the comment with empty data. -/
theorem mid_comment_eof_emits_comment_then_eof :
    Legacy.tokenize "<!--x".toList = .ok [.comment "x".toList, .eof] ∧
    Tokenizer.start "<!--x".toList = .ok [.comment [], .eof] :=
  ⟨by decide, by decide⟩

end Hanami.HTML

namespace Hanami.HTML

open Hanami

/-- The cons equation of `regexReplaceCRLF` when the head is not the
start of a CR LF pair. -/
theorem regexReplaceCRLF_cons (c : Char) (rest : List Char)
    (h : c ≠ '\x0d' ∨ ∀ t, rest ≠ '\n' :: t) :
    regexReplaceCRLF (c :: rest) = c :: regexReplaceCRLF rest := by
  rw [regexReplaceCRLF.eq_def]
  split
  · rename_i heq
    injection heq with e1 e2
    cases h with
    | inl hc => exact absurd e1 hc
    | inr hr => exact absurd e2 (hr _)
  · rename_i heq
    injection heq with e1 e2
    rw [← e1, ← e2]
  · rename_i heq
    exact absurd heq (List.cons_ne_nil _ _)

/-- The standalone-CR equation of `normalizeNewlinesSpec`. -/
theorem normalizeNewlinesSpec_cr (rest : List Char)
    (h : ∀ t, rest ≠ '\n' :: t) :
    normalizeNewlinesSpec ('\x0d' :: rest) =
      '\n' :: normalizeNewlinesSpec rest := by
  rw [normalizeNewlinesSpec.eq_def]
  split
  · rename_i heq
    injection heq with e1 e2
    exact absurd e2 (h _)
  · rename_i heq
    injection heq with e1 e2
    rw [← e2]
  · rename_i hcon heq
    injection heq with e1 e2
    exact absurd e1.symm (fun hh => hcon hh)
  · rename_i heq
    exact absurd heq (List.cons_ne_nil _ _)

/-- The ordinary-character equation of `normalizeNewlinesSpec`. -/
theorem normalizeNewlinesSpec_cons (c : Char) (rest : List Char)
    (h : c ≠ '\x0d') :
    normalizeNewlinesSpec (c :: rest) = c :: normalizeNewlinesSpec rest := by
  rw [normalizeNewlinesSpec.eq_def]
  split
  · rename_i heq
    injection heq with e1 e2
    exact absurd e1 h
  · rename_i heq
    injection heq with e1 e2
    exact absurd e1 h
  · rename_i heq
    injection heq with e1 e2
    rw [← e1, ← e2]
  · rename_i heq
    exact absurd heq (List.cons_ne_nil _ _)

/-- The two-pass implementation equals the single-pass specification. -/
theorem normalize_aux : ∀ s : List Char,
    Parser.normalizeInputStream s = normalizeNewlinesSpec s := by
  intro s
  induction s using normalizeNewlinesSpec.induct with
  | case1 rest ih =>
    simpa [Parser.normalizeInputStream, regexReplaceCRLF,
      normalizeNewlinesSpec] using ih
  | case2 rest h ih =>
    have hne : ∀ t, rest ≠ '\n' :: t := fun t hh => h t hh
    unfold Parser.normalizeInputStream at *
    rw [regexReplaceCRLF_cons _ _ (Or.inr hne),
      normalizeNewlinesSpec_cr _ hne]
    simp [ih]
  | case3 c rest h1 h2 ih =>
    have hne : c ≠ '\x0d' := fun hh => h2 hh
    unfold Parser.normalizeInputStream at *
    rw [regexReplaceCRLF_cons _ _ (Or.inl hne),
      normalizeNewlinesSpec_cons _ _ hne]
    simp only [List.map_cons, if_neg hne]
    rw [ih]
  | case4 => rfl

/-- C9: CONFIRMED.  `Parser::normalize_input_stream` replaces every CR LF
pair with a single LF and every remaining standalone CR with LF, leaving
all other characters unchanged in order (it coincides with the
single-pass specification `normalizeNewlinesSpec` on every input); in
particular a lone CR at end of input and a CR LF at end of input both
become exactly one LF with no additional output. -/
theorem normalize_input_stream_matches_spec :
    (∀ s : List Char,
      Parser.normalizeInputStream s = normalizeNewlinesSpec s) ∧
    Parser.normalizeInputStream ['\x0d'] = ['\n'] ∧
    Parser.normalizeInputStream ['\x0d', '\n'] = ['\n'] :=
  ⟨normalize_aux, by decide, by decide⟩

end Hanami.HTML

namespace Hanami.HTML

open Hanami Hanami.DOM

/-- C10: CONFIRMED.  A comment token dispatched to the tree builder in
the InBody insertion mode (through the HTML-content branch) leaves the
tree builder state — document tree, stack of open elements, insertion
mode — entirely unchanged and requests no tokenizer state change: the
InBody "comment" arm tests `token_is<CharacterToken>` and therefore
never fires, and the comment falls through every other test to the final
break. -/
theorem in_body_comment_is_dropped (st : TreeBuilder) (d : List Char)
    (hmode : st.insertionMode = .inBody)
    (hdisp : TreeBuilder.dispatchToHtmlRules st (.comment d) = true) :
    TreeBuilder.processToken st (.comment d) = .ok (st, none) := by
  have harm : TreeBuilder.processInBody st (.comment d) =
      .ok (st, none, false) := by
    simp [TreeBuilder.processInBody, tokenIsCharacter, tokenIsStartTag,
      tokenIsStartTagAnyOf, tokenIsEndTag, tokenIsEndTagAnyOf]
  simp [TreeBuilder.processToken, TreeBuilder.processTokenLoop, hdisp,
    hmode, harm]

/-- A tree builder mid-parse in the InBody mode: a document whose html
element (in the HTML namespace) is on the stack of open elements. -/
def inBodyState : TreeBuilder :=
  { dom := ⟨[{ typ := .document, children := [1] },
             { typ := .element, iface := .htmlHtmlElement,
               namespaceUri := some htmlNamespace,
               localName := "html".toList,
               ownerDoc := some 0, parent := some 0 }]⟩,
    documentIdx := 0, insertionMode := .inBody,
    originalInsertionMode := .initial, openElements := [1],
    framesetOk := .isOk }

/-- C10 witness: the frame theorem applied at a concrete InBody state
and comment. -/
theorem in_body_comment_is_dropped_witness :
    inBodyState.insertionMode = .inBody ∧
    TreeBuilder.dispatchToHtmlRules inBodyState (.comment "c".toList) = true ∧
    TreeBuilder.processToken inBodyState (.comment "c".toList) =
      .ok (inBodyState, none) :=
  ⟨rfl, by decide,
    in_body_comment_is_dropped inBodyState "c".toList rfl (by decide)⟩

end Hanami.HTML

namespace Hanami.DOM

open Hanami

/-- `Dom.set` with an out-of-range index is the identity (as
`std::vector`-backed `List.set` is). -/
theorem Dom.set_of_le (d : Dom) (i : Nat) (n : DNode)
    (h : d.nodes.length ≤ i) : d.set i n = d := by
  simp [Dom.set, List.set_eq_of_length_le h]

/-- Reading back an in-range write. -/
theorem Dom.get_set_self (d : Dom) (i : Nat) (n : DNode)
    (h : i < d.nodes.length) : (d.set i n).get i = n := by
  simp [Dom.set, Dom.get, List.getD, List.getElem?_set_self', h]

/-- Reads at other indices are unaffected by a write. -/
theorem Dom.get_set_of_ne (d : Dom) (i j : Nat) (n : DNode)
    (h : i ≠ j) : (d.set i n).get j = d.get j := by
  simp [Dom.set, Dom.get, List.getD, List.getElem?_set_ne h]

/-- A write whose record keeps the old sibling links preserves every
node's sibling links. -/
theorem sib_preserved_set (d : Dom) (j : Nat) (n : DNode)
    (hp : n.prevSibling = (d.get j).prevSibling)
    (hn : n.nextSibling = (d.get j).nextSibling) (i : Nat) :
    ((d.set j n).get i).prevSibling = (d.get i).prevSibling ∧
    ((d.set j n).get i).nextSibling = (d.get i).nextSibling := by
  by_cases hij : j = i
  · subst hij
    by_cases hlt : j < d.nodes.length
    · rw [Dom.get_set_self _ _ _ hlt]
      exact ⟨hp, hn⟩
    · rw [Dom.set_of_le _ _ _ (Nat.le_of_not_lt hlt)]
      exact ⟨rfl, rfl⟩
  · rw [Dom.get_set_of_ne _ _ _ _ hij]
    exact ⟨rfl, rfl⟩

/-- Transitive step form of `sib_preserved_set`, convenient for chaining
through the writes `insert_before` performs. -/
theorem sib_step {P N : Option Nat} {dA dB : Dom} {i : Nat} (j : Nat)
    (n : DNode) (hB : dB = dA.set j n)
    (hp : n.prevSibling = (dA.get j).prevSibling)
    (hn : n.nextSibling = (dA.get j).nextSibling)
    (h2 : (dA.get i).prevSibling = P ∧ (dA.get i).nextSibling = N) :
    (dB.get i).prevSibling = P ∧ (dB.get i).nextSibling = N := by
  subst hB
  have hh := sib_preserved_set dA j n hp hn i
  exact ⟨hh.1.trans h2.1, hh.2.trans h2.2⟩

/-- The arena for the C4 counterexample: a Document and two fresh
elements, none of them linked yet. -/
def c4Arena : Dom :=
  ⟨[{ typ := .document },
    { typ := .element, localName := "a".toList },
    { typ := .element, localName := "b".toList }]⟩

/-- C4: REFUTED.  Appending two children to the Document with
`Node::append_child` yields a parent whose ordered child list is [1, 2],
yet the sibling-link form of invariant I2 fails: the links were never
written, so the first child's next-sibling is nil instead of the second
child. -/
theorem append_child_breaks_sibling_invariant :
    (do
      let d1 ← Node.appendChild c4Arena 0 1
      let d2 ← Node.appendChild d1 0 2
      Outcome.ok ((d2.get 0).children, siblingLinksOk d2 0))
    = .ok ([1, 2], false) := by
  decide

/-- C4 amended: `Node::insert_before` (and hence `append_child`) leaves
every node's previous/next sibling pointers exactly as they were — the
insertion algorithms never write the sibling links, so the doubly linked
sibling list of invariant I2 only holds for parents with at most one
child (all links stay nil for parser-created nodes). -/
theorem insert_before_preserves_sibling_links (d : Dom) (self node : Nat)
    (child : Option Nat) (d' : Dom)
    (h : Node.insertBefore d self node child = .ok d') (i : Nat) :
    (d'.get i).prevSibling = (d.get i).prevSibling ∧
    (d'.get i).nextSibling = (d.get i).nextSibling := by
  unfold Node.insertBefore at h
  simp only [bind, Outcome.bind] at h
  generalize hd1 : Node.insertIntoChildVector d self node
    (if child = some node then (d.get node).nextSibling else child) = d1 at h
  have base : (d1.get i).prevSibling = (d.get i).prevSibling ∧
      (d1.get i).nextSibling = (d.get i).nextSibling := by
    rw [← hd1]
    simp only [Node.insertIntoChildVector]
    exact sib_step _ _ rfl rfl rfl ⟨rfl, rfl⟩
  split at h
  · split at h
    · injection h with h
      subst h
      exact sib_step _ _ rfl rfl rfl (sib_step _ _ rfl rfl rfl base)
    · exact Outcome.noConfusion h
  · injection h with h
    subst h
    exact sib_step _ _ rfl rfl rfl base

/-- The arena of `c4Arena` after appending element 1 to the Document. -/
def c4ArenaAfter : Dom :=
  ⟨[{ typ := .document, children := [1] },
    { typ := .element, localName := "a".toList,
      ownerDoc := some 0, parent := some 0 },
    { typ := .element, localName := "b".toList }]⟩

/-- C4 amended witness: the preservation theorem applied at a concrete
insertion. -/
theorem insert_before_preserves_sibling_links_witness :
    Node.insertBefore c4Arena 0 1 none = .ok c4ArenaAfter ∧
    ((c4ArenaAfter.get 1).prevSibling = (c4Arena.get 1).prevSibling ∧
     (c4ArenaAfter.get 1).nextSibling = (c4Arena.get 1).nextSibling) :=
  ⟨by decide,
    insert_before_preserves_sibling_links c4Arena 0 1 none c4ArenaAfter
      (by decide) 1⟩

end Hanami.DOM

namespace Hanami.DOM

open Hanami

/-- A write does not change the arena's size. -/
theorem Dom.length_set (d : Dom) (i : Nat) (n : DNode) :
    (d.set i n).nodes.length = d.nodes.length := by
  simp [Dom.set]

/-- An allocation grows the arena by one. -/
theorem Dom.length_add (d : Dom) (n : DNode) :
    (d.add n).1.nodes.length = d.nodes.length + 1 := by
  simp [Dom.add]

/-- The allocated index of `Dom.add`. -/
theorem Dom.add_snd (d : Dom) (n : DNode) : (d.add n).2 = d.nodes.length :=
  rfl

/-- Reading the freshly allocated node. -/
theorem Dom.get_add_last (d : Dom) (n : DNode) :
    (d.add n).1.get d.nodes.length = n := by
  simp [Dom.add, Dom.get, List.getD]

/-- Reads at other indices are unaffected by an allocation. -/
theorem Dom.get_add_of_ne (d : Dom) (n : DNode) (j : Nat)
    (h : j ≠ d.nodes.length) : (d.add n).1.get j = d.get j := by
  rcases Nat.lt_or_ge j d.nodes.length with hlt | hge
  · simp [Dom.add, Dom.get, List.getD, List.getElem?_append_left hlt]
  · have hgt : d.nodes.length < j :=
      Nat.lt_of_le_of_ne hge (fun hh => h hh.symm)
    have h1 : (d.nodes ++ [n])[j]? = none := by
      rw [List.getElem?_eq_none]
      simp
      omega
    have h2 : d.nodes[j]? = none := by
      rw [List.getElem?_eq_none]
      omega
    simp [Dom.add, Dom.get, List.getD, h1, h2]

/-- `Node::insert_before` of a freshly allocated non-element node with a
null reference child: the node is appended to the target's child vector,
its parent is set, and nothing else moves. -/
theorem insert_before_append_fresh (d : Dom) (self : Nat) (n : DNode)
    (hself : self < d.nodes.length)
    (hntyp : n.typ ≠ .element)
    (hseldoc : (d.get self).typ ≠ .document) :
    ∃ d', Node.insertBefore (d.add n).1 self (d.add n).2 none = .ok d' ∧
      d'.nodes.length = d.nodes.length + 1 ∧
      (d'.get d.nodes.length).typ = n.typ ∧
      (d'.get d.nodes.length).data = n.data ∧
      (d'.get d.nodes.length).parent = some self ∧
      (d'.get self).children = (d.get self).children ++ [d.nodes.length] := by
  have hne : self ≠ d.nodes.length := Nat.ne_of_lt hself
  have hg1 : (d.add n).1.get self = d.get self := Dom.get_add_of_ne _ _ _ hne
  have hglen : (d.add n).1.get d.nodes.length = n := Dom.get_add_last _ _
  unfold Node.insertBefore Node.insertIntoChildVector
  simp only [bind, Outcome.bind, Dom.add_snd, hg1, hglen]
  have hGS : ∀ r : DNode,
      ((d.add n).1.set self r).get d.nodes.length = n :=
    fun r => (Dom.get_set_of_ne _ _ _ _ hne).trans hglen
  have hSS : ∀ r : DNode, ((d.add n).1.set self r).get self = r := by
    intro r
    apply Dom.get_set_self
    rw [Dom.length_add]
    omega
  simp only [show ((none : Option Nat) = some d.nodes.length) = False by simp,
    if_false, List.take_length, List.drop_length, List.append_nil, hGS, hSS]
  have hcf : (decide (n.typ = .element) &&
      decide (n.localName = "body".toList)) = false := by
    simp [hntyp]
  simp only [hcf, Bool.false_eq_true, if_false, if_neg hseldoc]
  have hlen2 : d.nodes.length <
      (((d.add n).1.set self ({ d.get self with
        children := (d.get self).children ++ [d.nodes.length] })).nodes.length) := by
    rw [Dom.length_set, Dom.length_add]
    omega
  refine ⟨_, rfl, ?_, ?_, ?_, ?_, ?_⟩
  · rw [Dom.length_set, Dom.length_set, Dom.length_add]
  · rw [Dom.get_set_self _ _ _ hlen2]
  · rw [Dom.get_set_self _ _ _ hlen2]
  · rw [Dom.get_set_self _ _ _ hlen2]
  · rw [Dom.get_set_of_ne _ _ _ _ (Ne.symm hne), hSS]

end Hanami.DOM

namespace Hanami.HTML

open Hanami Hanami.DOM

/-- Claim C7, appending case: when the node immediately before the
appropriate insertion place (the current node's last child) is a Text
node, `insert_character` appends the character to that Text node's data;
the arena does not grow and the child list is unchanged. -/
theorem insert_character_append_case (st : TreeBuilder) (c : Char)
    (cur : Nat) (before : Nat)
    (hcur : TreeBuilder.currentNode st = some cur)
    (hdoc : (st.dom.get cur).typ ≠ .document)
    (hlast : (st.dom.get cur).children.getLast? = some before)
    (htext : (st.dom.get before).typ = .text)
    (hblt : before < st.dom.nodes.length) :
    ∃ st', TreeBuilder.insertCharacter st c = .ok st' ∧
      st'.dom.nodes.length = st.dom.nodes.length ∧
      (st'.dom.get before).data = (st.dom.get before).data ++ [c] ∧
      (st'.dom.get cur).children = (st.dom.get cur).children := by
  apply Exists.intro ({ st with dom := st.dom.set before ({ st.dom.get before with data := (st.dom.get before).data ++ [c] }) })
  refine ⟨?_, ?_, ?_, ?_⟩
  · unfold TreeBuilder.insertCharacter TreeBuilder.appropriateInsertionPlace
    rw [hcur]
    simp only [bind, Outcome.bind, hcur, hlast]
    rw [if_neg hdoc, if_pos htext]
  · exact Dom.length_set _ _ _
  · rw [Dom.get_set_self _ _ _ hblt]
  · by_cases hcb : before = cur
    · subst hcb
      rw [Dom.get_set_self _ _ _ hblt]
    · rw [Dom.get_set_of_ne _ _ _ _ hcb]

/-- Claim C7, fresh-node case: when the current node's last child is not
a Text node (or there is no child), `insert_character` creates a new
Text node holding exactly the character and inserts it at the insertion
place (the end of the current node's child list). -/
theorem insert_character_new_node_case (st : TreeBuilder) (c : Char)
    (cur : Nat)
    (hcur : TreeBuilder.currentNode st = some cur)
    (hdoc : (st.dom.get cur).typ ≠ .document)
    (hlt : cur < st.dom.nodes.length)
    (hnb : ∀ before, (st.dom.get cur).children.getLast? = some before →
        (st.dom.get before).typ ≠ .text) :
    ∃ st', TreeBuilder.insertCharacter st c = .ok st' ∧
      st'.dom.nodes.length = st.dom.nodes.length + 1 ∧
      (st'.dom.get st.dom.nodes.length).typ = .text ∧
      (st'.dom.get st.dom.nodes.length).data = [c] ∧
      (st'.dom.get st.dom.nodes.length).parent = some cur ∧
      (st'.dom.get cur).children =
        (st.dom.get cur).children ++ [st.dom.nodes.length] := by
  have key : TreeBuilder.insertCharacter st c = (do
      let p := st.dom.add ({ typ := .text, data := [c], ownerDoc := (st.dom.get cur).ownerDoc })
      let d ← Node.insertBefore p.1 cur p.2 none
      Outcome.ok ({ st with dom := d })) := by
    unfold TreeBuilder.insertCharacter TreeBuilder.appropriateInsertionPlace
    rw [hcur]
    simp only [bind, Outcome.bind, hcur]
    rw [if_neg hdoc]
    rcases hgl : (st.dom.get cur).children.getLast? with _ | before
    · rfl
    · simp [hnb before hgl]
  obtain ⟨d', heq, hlen', htyp', hdata', hpar', hch'⟩ :=
    insert_before_append_fresh st.dom cur
      ({ typ := .text, data := [c], ownerDoc := (st.dom.get cur).ownerDoc })
      hlt (by simp) hdoc
  refine ⟨{ st with dom := d' }, ?_, hlen', htyp', hdata', hpar', hch'⟩
  rw [key]
  simp only [bind, Outcome.bind, heq]

/-- C7: CONFIRMED.  Whenever the tree builder inserts a character and the
node immediately before the appropriate insertion place (the current
node's last child) is a Text node, the character is appended to that
Text node's data and no new node is created; only otherwise is a new
Text node containing the character created and inserted at that place
(the current-node hypotheses reflect that `insert_character` is only
invoked with a live, non-Document current node: the stack of open
elements holds elements). -/
theorem insert_character_coalesces_text (st : TreeBuilder) (c : Char)
    (cur : Nat)
    (hcur : TreeBuilder.currentNode st = some cur)
    (hdoc : (st.dom.get cur).typ ≠ .document)
    (hlt : cur < st.dom.nodes.length) :
    (∀ before, (st.dom.get cur).children.getLast? = some before →
      (st.dom.get before).typ = .text → before < st.dom.nodes.length →
      ∃ st', TreeBuilder.insertCharacter st c = .ok st' ∧
        st'.dom.nodes.length = st.dom.nodes.length ∧
        (st'.dom.get before).data = (st.dom.get before).data ++ [c] ∧
        (st'.dom.get cur).children = (st.dom.get cur).children) ∧
    ((∀ before, (st.dom.get cur).children.getLast? = some before →
        (st.dom.get before).typ ≠ .text) →
      ∃ st', TreeBuilder.insertCharacter st c = .ok st' ∧
        st'.dom.nodes.length = st.dom.nodes.length + 1 ∧
        (st'.dom.get st.dom.nodes.length).typ = .text ∧
        (st'.dom.get st.dom.nodes.length).data = [c] ∧
        (st'.dom.get st.dom.nodes.length).parent = some cur ∧
        (st'.dom.get cur).children =
          (st.dom.get cur).children ++ [st.dom.nodes.length]) :=
  ⟨fun before h1 h2 h3 =>
      insert_character_append_case st c cur before hcur hdoc h1 h2 h3,
    fun hnb => insert_character_new_node_case st c cur hcur hdoc hlt hnb⟩

/-- A tree builder mid-parse whose current node (the html element) ends
with a Text node child holding "h". -/
def c7State : TreeBuilder :=
  { dom := ⟨[{ typ := .document, children := [1] },
             { typ := .element, iface := .htmlHtmlElement,
               namespaceUri := some htmlNamespace,
               localName := "html".toList, ownerDoc := some 0,
               parent := some 0, children := [2] },
             { typ := .text, data := "h".toList, ownerDoc := some 0,
               parent := some 1 }]⟩,
    documentIdx := 0, insertionMode := .inBody,
    originalInsertionMode := .initial, openElements := [1],
    framesetOk := .isOk }

/-- C7 witness: the coalescing theorem applied at a concrete state whose
insertion place is immediately preceded by a Text node. -/
theorem insert_character_coalesces_text_witness :
    TreeBuilder.currentNode c7State = some 1 ∧
    (c7State.dom.get 1).typ ≠ .document ∧
    (1 : Nat) < c7State.dom.nodes.length ∧
    (c7State.dom.get 1).children.getLast? = some 2 ∧
    (c7State.dom.get 2).typ = .text ∧
    (2 : Nat) < c7State.dom.nodes.length ∧
    (∃ st', TreeBuilder.insertCharacter c7State 'i' = .ok st' ∧
      st'.dom.nodes.length = c7State.dom.nodes.length ∧
      (st'.dom.get 2).data = (c7State.dom.get 2).data ++ ['i'] ∧
      (st'.dom.get 1).children = (c7State.dom.get 1).children) :=
  ⟨rfl, by decide, by decide, by decide, by decide, by decide,
    (insert_character_coalesces_text c7State 'i' 1 rfl (by decide)
        (by decide)).1 2 (by decide) (by decide) (by decide)⟩

end Hanami.HTML
